import Mathlib

/-!
Verification of the `rl` read-later link store (Go sources under
`internal/model`, `internal/storage`, `internal/cli`).

The Go code is shallowly embedded: Go strings are modeled as their
character sequences (`GoStr`), Go `time.Time` values as a `GoTime`
record of calendar components plus a UTC offset in minutes, the SQLite
`links` table as a list of `Row` records (one field per column, with
`Option` for nullable columns), and each storage method as a Lean
function on that state.  External engine failures (failed `INSERT` /
`DELETE` / `UPDATE` statements) are modeled by a failure oracle passed
to the embedded operation, indexed by the position of the statement in
the operation's execution; the oracle that never fires recovers the
failure-free behaviour.
-/

/-- A Go string, modeled as its sequence of runes (Unicode scalar values). -/
abbrev GoStr := List Char

namespace Model

/-- UTF-8 encoded size in bytes of one rune; Go `len(s)` on a string is the
sum of these over the string's runes. -/
def charUTF8Size (c : Char) : Nat :=
  if c.toNat ≤ 0x7F then 1
  else if c.toNat ≤ 0x7FF then 2
  else if c.toNat ≤ 0xFFFF then 3
  else 4

/-- Go `len(s)` for a string: its length in bytes. -/
def goLen (s : GoStr) : Nat := (s.map charUTF8Size).sum

/-- The per-rune test of `ValidateShortID` (uuid.go): rune comparisons in Go
compare code points, so `(c >= 'a' && c <= 'z') || (c >= 'A' && c <= 'Z') ||
(c >= '0' && c <= '9')` is expressed on `Char.toNat`. -/
def isAlnumRune (c : Char) : Bool :=
  (97 ≤ c.toNat && c.toNat ≤ 122) || (65 ≤ c.toNat && c.toNat ≤ 90) ||
    (48 ≤ c.toNat && c.toNat ≤ 57)

/-- `model.ValidateShortID` (uuid.go): length (in bytes) between 10 and 30,
and every rune alphanumeric. -/
def ValidateShortID (id : GoStr) : Bool :=
  if goLen id < 10 ∨ goLen id > 30 then false
  else id.all isAlnumRune

/-- The standard base-32 alphabet used by Go `encoding/base32.StdEncoding`. -/
def base32Alphabet : GoStr := "ABCDEFGHIJKLMNOPQRSTUVWXYZ234567".data

/-- The eight bits of one byte, most significant first (`b` is taken mod 256
by construction of the callers). -/
def byteBits (b : Nat) : List Bool :=
  [b / 128 % 2 == 1, b / 64 % 2 == 1, b / 32 % 2 == 1, b / 16 % 2 == 1,
   b / 8 % 2 == 1, b / 4 % 2 == 1, b / 2 % 2 == 1, b % 2 == 1]

/-- Value of a 5-bit group, most significant bit first. -/
def quint (a b c d e : Bool) : Nat :=
  16 * (cond a 1 0) + 8 * (cond b 1 0) + 4 * (cond c 1 0) + 2 * (cond d 1 0) +
    (cond e 1 0)

/-- Split a bit stream into 5-bit groups; a final partial group is padded
with zero bits, as RFC 4648 (and Go's encoder) does for unpadded output. -/
def toQuints : List Bool → List Nat
  | [] => []
  | a :: b :: c :: d :: e :: rest => quint a b c d e :: toQuints rest
  | [a] => [quint a false false false false]
  | [a, b] => [quint a b false false false]
  | [a, b, c] => [quint a b c false false]
  | [a, b, c, d] => [quint a b c d false]

/-- Go `base32.StdEncoding.WithPadding(base32.NoPadding).EncodeToString`. -/
def base32EncodeNoPad (bytes : List Nat) : GoStr :=
  (toQuints (bytes.flatMap byteBits)).map (fun n => base32Alphabet.getD n 'A')

/-- ASCII lowering of one rune (the fragment of Go `strings.ToLower` acting
on ASCII letters; tags and IDs in this development are ASCII). -/
def asciiLower (c : Char) : Char :=
  if 65 ≤ c.toNat ∧ c.toNat ≤ 90 then Char.ofNat (c.toNat + 32) else c

/-- ASCII fragment of Go `strings.ToLower`. -/
def lowerStr (s : GoStr) : GoStr := s.map asciiLower

/-- `model.GenerateShortID` (uuid.go), with the 16 random bytes of the
UUID passed in explicitly: base-32 encode without padding, then lowercase. -/
def GenerateShortID (entropy : List Nat) : GoStr :=
  lowerStr (base32EncodeNoPad entropy)

theorem toQuints_length (l : List Bool) :
    (toQuints l).length = (l.length + 4) / 5 := by
  induction l using toQuints.induct <;> simp [toQuints, *] <;> omega

theorem quint_lt (a b c d e : Bool) : quint a b c d e < 32 := by
  cases a <;> cases b <;> cases c <;> cases d <;> cases e <;> decide

theorem toQuints_mem_lt (l : List Bool) (x : Nat) (hx : x ∈ toQuints l) :
    x < 32 := by
  induction l using toQuints.induct with
  | case1 => simp [toQuints] at hx
  | case2 a b c d e rest ih =>
      simp only [toQuints, List.mem_cons] at hx
      rcases hx with h | h
      · exact h ▸ quint_lt _ _ _ _ _
      · exact ih h
  | case3 a =>
      simp only [toQuints, List.mem_singleton] at hx
      exact hx ▸ quint_lt _ _ _ _ _
  | case4 a b =>
      simp only [toQuints, List.mem_singleton] at hx
      exact hx ▸ quint_lt _ _ _ _ _
  | case5 a b c =>
      simp only [toQuints, List.mem_singleton] at hx
      exact hx ▸ quint_lt _ _ _ _ _
  | case6 a b c d =>
      simp only [toQuints, List.mem_singleton] at hx
      exact hx ▸ quint_lt _ _ _ _ _

theorem byteBits_length (b : Nat) : (byteBits b).length = 8 := by
  simp [byteBits]

theorem flatMap_byteBits_length (bytes : List Nat) :
    (bytes.flatMap byteBits).length = 8 * bytes.length := by
  induction bytes with
  | nil => simp
  | cons b bs ih => simp [List.flatMap_cons, byteBits_length, ih]; omega

theorem lower_alphabet_alnum (n : Nat) :
    isAlnumRune (asciiLower (base32Alphabet.getD n 'A')) = true := by
  by_cases h : n < 32
  · interval_cases n <;> decide
  · rw [List.getD_eq_default _ _ (by simp [base32Alphabet]; omega)]
    decide

theorem alnum_utf8Size (c : Char) (h : isAlnumRune c = true) :
    charUTF8Size c = 1 := by
  simp only [isAlnumRune, Bool.or_eq_true, Bool.and_eq_true, decide_eq_true_eq] at h
  unfold charUTF8Size
  rcases h with (⟨h1, h2⟩ | ⟨h1, h2⟩) | ⟨h1, h2⟩ <;> rw [if_pos (by omega)]

theorem goLen_of_all_alnum (s : GoStr) (h : s.all isAlnumRune = true) :
    goLen s = s.length := by
  induction s with
  | nil => rfl
  | cons c cs ih =>
      simp only [List.all_cons, Bool.and_eq_true] at h
      simp only [goLen, List.map_cons, List.sum_cons, alnum_utf8Size c h.1,
        List.length_cons]
      have := ih h.2
      simp only [goLen] at this
      omega

/-- C6, part used by both directions: `ValidateShortID` in terms of rune
count whenever all runes are alphanumeric ASCII. -/
theorem validateShortID_spec (s : GoStr) :
    ValidateShortID s = true ↔
      ((∀ c ∈ s, (48 ≤ c.toNat ∧ c.toNat ≤ 57) ∨ (97 ≤ c.toNat ∧ c.toNat ≤ 122) ∨
          (65 ≤ c.toNat ∧ c.toNat ≤ 90)) ∧ 10 ≤ s.length ∧ s.length ≤ 30) := by
  constructor
  · intro h
    unfold ValidateShortID at h
    split at h
    · exact absurd h (by simp)
    · next hlen =>
        have hall : s.all isAlnumRune = true := h
        have hgl := goLen_of_all_alnum s hall
        refine ⟨?_, ?_, ?_⟩
        · intro c hc
          have := (List.all_eq_true.mp hall) c hc
          simp only [isAlnumRune, Bool.or_eq_true, Bool.and_eq_true,
            decide_eq_true_eq] at this
          tauto
        · omega
        · omega
  · rintro ⟨hmem, h10, h30⟩
    have hall : s.all isAlnumRune = true := by
      rw [List.all_eq_true]
      intro c hc
      have := hmem c hc
      simp only [isAlnumRune, Bool.or_eq_true, Bool.and_eq_true,
        decide_eq_true_eq]
      tauto
    have hgl := goLen_of_all_alnum s hall
    unfold ValidateShortID
    rw [if_neg (by omega)]
    exact hall

theorem generateShortID_all_alnum (entropy : List Nat) :
    (GenerateShortID entropy).all isAlnumRune = true := by
  rw [List.all_eq_true]
  intro c hc
  simp only [GenerateShortID, lowerStr, base32EncodeNoPad, List.map_map,
    List.mem_map] at hc
  obtain ⟨n, _, rfl⟩ := hc
  exact lower_alphabet_alnum n

theorem generateShortID_length (entropy : List Nat)
    (h : entropy.length = 16) : (GenerateShortID entropy).length = 26 := by
  simp only [GenerateShortID, lowerStr, base32EncodeNoPad, List.length_map]
  rw [toQuints_length, flatMap_byteBits_length, h]

end Model

/-- C6: `ValidateShortID` accepts exactly the strings made of ASCII letters
and digits with length between 10 and 30 runes, and every identifier
produced by `GenerateShortID` from a 16-byte (128-bit) input is a 26-rune
token that passes `ValidateShortID`. -/
theorem C6_validateShortID_iff_and_generated_passes :
    (∀ s : GoStr, Model.ValidateShortID s = true ↔
        ((∀ c ∈ s, (48 ≤ c.toNat ∧ c.toNat ≤ 57) ∨
            (97 ≤ c.toNat ∧ c.toNat ≤ 122) ∨ (65 ≤ c.toNat ∧ c.toNat ≤ 90)) ∧
          10 ≤ s.length ∧ s.length ≤ 30)) ∧
    (∀ entropy : List Nat, entropy.length = 16 →
        (Model.GenerateShortID entropy).length = 26 ∧
        Model.ValidateShortID (Model.GenerateShortID entropy) = true) := by
  refine ⟨Model.validateShortID_spec, fun entropy h => ⟨Model.generateShortID_length entropy h, ?_⟩⟩
  rw [Model.validateShortID_spec]
  have hall := Model.generateShortID_all_alnum entropy
  refine ⟨?_, ?_, ?_⟩
  · intro c hc
    have := (List.all_eq_true.mp hall) c hc
    simp only [Model.isAlnumRune, Bool.or_eq_true, Bool.and_eq_true,
      decide_eq_true_eq] at this
    tauto
  · rw [Model.generateShortID_length entropy h]; omega
  · rw [Model.generateShortID_length entropy h]; omega

/-- Witness for C6 at concrete inputs: the string of the repository's
sample ID passes, and the generator applied to sixteen zero bytes yields a
valid 26-rune identifier. -/
theorem C6_witness :
    Model.ValidateShortID ("9m1w2z3xaa".data) = true ∧
    Model.ValidateShortID (Model.GenerateShortID (List.replicate 16 0)) = true := by
  constructor
  · exact (C6_validateShortID_iff_and_generated_passes.1 _).mpr (by decide)
  · exact (C6_validateShortID_iff_and_generated_passes.2 (List.replicate 16 0) (by decide)).2

/-- The fragment of Go `time.Time` observable through the three SQLite
textual layouts the program uses: calendar components plus a zone offset
in minutes (`Z` is offset 0).  Go's zero time is year 1, January 1,
00:00:00 UTC. -/
structure GoTime where
  year : Nat
  month : Nat
  day : Nat
  hour : Nat
  minute : Nat
  second : Nat
  offMin : Int
deriving DecidableEq, Repr

namespace GoTime

/-- Go's `time.Time` zero value as a calendar date. -/
def zero : GoTime := ⟨1, 1, 1, 0, 0, 0, 0⟩

/-- Go `time.Time.IsZero`. -/
def isZero (t : GoTime) : Bool := t == zero

/-- Gregorian leap-year rule, as in Go `time`. -/
def isLeap (y : Nat) : Bool := y % 4 == 0 && (y % 100 != 0 || y % 400 == 0)

/-- Days in a month, as validated by Go `time.Parse`. -/
def daysIn (y m : Nat) : Nat :=
  if m = 2 then (if isLeap y then 29 else 28)
  else if m = 4 ∨ m = 6 ∨ m = 9 ∨ m = 11 then 30
  else 31

/-- Calendar validity: the component ranges Go's parser accepts, plus a
four-digit year and an in-range zone offset so the value is representable
in the textual layouts. -/
def Valid (t : GoTime) : Prop :=
  t.year ≤ 9999 ∧ 1 ≤ t.month ∧ t.month ≤ 12 ∧ 1 ≤ t.day ∧
    t.day ≤ daysIn t.year t.month ∧ t.hour ≤ 23 ∧ t.minute ≤ 59 ∧
    t.second ≤ 59 ∧ t.offMin.natAbs ≤ 23 * 60 + 59

instance (t : GoTime) : Decidable t.Valid := by unfold Valid; infer_instance

end GoTime

namespace GoTimeText

/-- The decimal digit rune for `n % 10`. -/
def digitChar (n : Nat) : Char := Char.ofNat (48 + n % 10)

/-- Two-digit zero-padded decimal, as Go layout fields `01`, `02`, `15`,
`04`, `05` print values below 100. -/
def pad2 (n : Nat) : GoStr := [digitChar (n / 10), digitChar n]

/-- Four-digit zero-padded decimal, as Go layout field `2006` prints
values below 10000. -/
def pad4 (n : Nat) : GoStr :=
  [digitChar (n / 1000), digitChar (n / 100), digitChar (n / 10), digitChar n]

/-- Go `c >= '0' && c <= '9'` on a rune. -/
def goIsDigit (c : Char) : Bool := 48 ≤ c.toNat && c.toNat ≤ 57

/-- Numeric value of a digit rune. -/
def readDigit (c : Char) : Nat := c.toNat - 48

/-- Read a two-digit field. -/
def read2 (a b : Char) : Option Nat :=
  if goIsDigit a && goIsDigit b then some (10 * readDigit a + readDigit b)
  else none

/-- Read a four-digit field. -/
def read4 (a b c d : Char) : Option Nat :=
  if goIsDigit a && goIsDigit b && goIsDigit c && goIsDigit d then
    some (1000 * readDigit a + 100 * readDigit b + 10 * readDigit c + readDigit d)
  else none

/-- Range validation performed by Go `time.Parse` before building the
value: month, day-of-month (month-aware), hour, minute, second. -/
def checkDateTime (y mo d h mi s : Nat) (off : Int) : Option GoTime :=
  if 1 ≤ mo ∧ mo ≤ 12 ∧ 1 ≤ d ∧ d ≤ GoTime.daysIn y mo ∧ h ≤ 23 ∧ mi ≤ 59 ∧
      s ≤ 59 then
    some ⟨y, mo, d, h, mi, s, off⟩
  else none

/-- Go `time.Parse(time.RFC3339, s)` on the fraction-free grammar
`YYYY-MM-DDTHH:MM:SS` followed by `Z` or a `±HH:MM` offset (the only
shapes this program ever writes or exchanges). -/
def parseRFC3339 : GoStr → Option GoTime
  | [y1, y2, y3, y4, c1, m1, m2, c2, d1, d2, c3, h1, h2, c4, n1, n2, c5,
     s1, s2, z] =>
      if c1 = '-' ∧ c2 = '-' ∧ c3 = 'T' ∧ c4 = ':' ∧ c5 = ':' ∧ z = 'Z' then
        match read4 y1 y2 y3 y4, read2 m1 m2, read2 d1 d2, read2 h1 h2,
            read2 n1 n2, read2 s1 s2 with
        | some y, some mo, some d, some h, some mi, some s =>
            checkDateTime y mo d h mi s 0
        | _, _, _, _, _, _ => none
      else none
  | [y1, y2, y3, y4, c1, m1, m2, c2, d1, d2, c3, h1, h2, c4, n1, n2, c5,
     s1, s2, sg, o1, o2, c6, o3, o4] =>
      if c1 = '-' ∧ c2 = '-' ∧ c3 = 'T' ∧ c4 = ':' ∧ c5 = ':' ∧
          (sg = '+' ∨ sg = '-') ∧ c6 = ':' then
        match read4 y1 y2 y3 y4, read2 m1 m2, read2 d1 d2, read2 h1 h2,
            read2 n1 n2, read2 s1 s2, read2 o1 o2, read2 o3 o4 with
        | some y, some mo, some d, some h, some mi, some s, some oh, some om =>
            checkDateTime y mo d h mi s
              ((if sg = '-' then -1 else 1) * (oh * 60 + om : Nat))
        | _, _, _, _, _, _, _, _ => none
      else none
  | _ => none

/-- Go `time.Parse("2006-01-02 15:04:05", s)`: the space-separated
date-time layout; no zone information, so the result is UTC. -/
def parseSpaceForm : GoStr → Option GoTime
  | [y1, y2, y3, y4, c1, m1, m2, c2, d1, d2, c3, h1, h2, c4, n1, n2, c5,
     s1, s2] =>
      if c1 = '-' ∧ c2 = '-' ∧ c3 = ' ' ∧ c4 = ':' ∧ c5 = ':' then
        match read4 y1 y2 y3 y4, read2 m1 m2, read2 d1 d2, read2 h1 h2,
            read2 n1 n2, read2 s1 s2 with
        | some y, some mo, some d, some h, some mi, some s =>
            checkDateTime y mo d h mi s 0
        | _, _, _, _, _, _ => none
      else none
  | _ => none

/-- Go `time.Parse("2006-01-02", s)`: the bare-date layout; clock fields
are zero, zone is UTC. -/
def parseDateForm : GoStr → Option GoTime
  | [y1, y2, y3, y4, c1, m1, m2, c2, d1, d2] =>
      if c1 = '-' ∧ c2 = '-' then
        match read4 y1 y2 y3 y4, read2 m1 m2, read2 d1 d2 with
        | some y, some mo, some d => checkDateTime y mo d 0 0 0 0
        | _, _, _ => none
      else none
  | _ => none

end GoTimeText

namespace Storage

open GoTimeText

/-- `parseSQLiteTime` (sqlite.go): empty string is the zero time; then the
three layouts are attempted in order — RFC 3339, space-separated
date-time, bare date — and total failure is the zero time. -/
def parseSQLiteTime (s : GoStr) : GoTime :=
  if s = [] then GoTime.zero
  else
    match parseRFC3339 s with
    | some t => t
    | none =>
        match parseSpaceForm s with
        | some t => t
        | none =>
            match parseDateForm s with
            | some t => t
            | none => GoTime.zero

end Storage

namespace GoTimeText

/-- Date half of the written layouts: `YYYY-MM-DD`. -/
def fmtDate (t : GoTime) : GoStr :=
  pad4 t.year ++ '-' :: pad2 t.month ++ '-' :: pad2 t.day

/-- Clock half of the written layouts: `HH:MM:SS`. -/
def fmtClock (t : GoTime) : GoStr :=
  pad2 t.hour ++ ':' :: pad2 t.minute ++ ':' :: pad2 t.second

/-- Zone suffix printed by Go layout fragment `Z07:00`. -/
def fmtOff (off : Int) : GoStr :=
  if off = 0 then ['Z']
  else (if off < 0 then '-' else '+') ::
    pad2 (off.natAbs / 60) ++ ':' :: pad2 (off.natAbs % 60)

/-- Go `t.Format(time.RFC3339)` (fraction-free; Go omits fractional
seconds when they are zero). -/
def formatRFC3339 (t : GoTime) : GoStr := fmtDate t ++ 'T' :: fmtClock t ++ fmtOff t.offMin

/-- The text produced by the SQLite expression `datetime('now')`, used by
`MarkRead`: the space-separated layout, in UTC. -/
def sqliteDatetimeText (t : GoTime) : GoStr := fmtDate t ++ ' ' :: fmtClock t

theorem digitChar_toNat (n : Nat) : (digitChar n).toNat = 48 + n % 10 := by
  have h : n % 10 < 10 := Nat.mod_lt _ (by omega)
  unfold digitChar
  set m := n % 10 with hm
  interval_cases m <;> decide

theorem digitChar_isDigit (n : Nat) : goIsDigit (digitChar n) = true := by
  simp only [goIsDigit, digitChar_toNat, Bool.and_eq_true, decide_eq_true_eq]
  omega

theorem readDigit_digitChar (n : Nat) : readDigit (digitChar n) = n % 10 := by
  simp [readDigit, digitChar_toNat]

theorem read2_pad2 (a b : Char) (n : Nat) (h : n < 100)
    (ha : a = digitChar (n / 10)) (hb : b = digitChar n) :
    read2 a b = some n := by
  subst ha hb
  simp only [read2, digitChar_isDigit, Bool.and_self, if_true,
    readDigit_digitChar]
  congr 1
  omega

theorem read4_pad4 (a b c d : Char) (n : Nat) (h : n < 10000)
    (ha : a = digitChar (n / 1000)) (hb : b = digitChar (n / 100))
    (hc : c = digitChar (n / 10)) (hd : d = digitChar n) :
    read4 a b c d = some n := by
  subst ha hb hc hd
  simp only [read4, digitChar_isDigit, Bool.and_self, if_true,
    readDigit_digitChar]
  congr 1
  omega

end GoTimeText

namespace GoTime

theorem daysIn_le (y m : Nat) : daysIn y m ≤ 31 := by
  unfold daysIn
  split
  · split <;> omega
  · split <;> omega

end GoTime

namespace GoTimeText

/-- The date-only reading of a calendar value: clock zero, UTC. -/
def dateOnly (t : GoTime) : GoTime := ⟨t.year, t.month, t.day, 0, 0, 0, 0⟩

theorem parseRFC3339_format (t : GoTime) (hv : t.Valid) :
    parseRFC3339 (formatRFC3339 t) = some t := by
  obtain ⟨y, mo, d, h, mi, s, off⟩ := t
  obtain ⟨hy, hmo1, hmo2, hd1, hd2, hh, hmi, hs, hoff⟩ := hv
  simp only at hy hmo1 hmo2 hd1 hd2 hh hmi hs hoff
  have hdle := GoTime.daysIn_le y mo
  by_cases h0 : off = 0
  · subst h0
    simp only [formatRFC3339, fmtDate, fmtClock, fmtOff, pad4, pad2,
      if_pos rfl, if_true, List.cons_append, List.nil_append]
    simp only [parseRFC3339, and_self, and_true, true_and, or_true,
      true_or, if_true]
    rw [read4_pad4 _ _ _ _ y (by omega) rfl rfl rfl rfl,
      read2_pad2 _ _ mo (by omega) rfl rfl,
      read2_pad2 _ _ d (by omega) rfl rfl,
      read2_pad2 _ _ h (by omega) rfl rfl,
      read2_pad2 _ _ mi (by omega) rfl rfl,
      read2_pad2 _ _ s (by omega) rfl rfl]
    simp only [checkDateTime]
    rw [if_pos (by exact ⟨hmo1, hmo2, hd1, hd2, hh, hmi, hs⟩)]
  · by_cases hneg : off < 0
    · simp only [formatRFC3339, fmtDate, fmtClock, fmtOff, if_neg h0,
        if_pos hneg, pad4, pad2, List.cons_append, List.nil_append]
      simp only [parseRFC3339, and_self, and_true, true_and, or_true,
        true_or, if_true]
      rw [read4_pad4 _ _ _ _ y (by omega) rfl rfl rfl rfl,
        read2_pad2 _ _ mo (by omega) rfl rfl,
        read2_pad2 _ _ d (by omega) rfl rfl,
        read2_pad2 _ _ h (by omega) rfl rfl,
        read2_pad2 _ _ mi (by omega) rfl rfl,
        read2_pad2 _ _ s (by omega) rfl rfl,
        read2_pad2 _ _ (off.natAbs / 60) (by omega) rfl rfl,
        read2_pad2 _ _ (off.natAbs % 60) (by omega) rfl rfl]
      simp only [checkDateTime]
      rw [if_pos (by exact ⟨hmo1, hmo2, hd1, hd2, hh, hmi, hs⟩)]
      simp only [Option.some.injEq, GoTime.mk.injEq, and_self, and_true,
        true_and]
      omega
    · simp only [formatRFC3339, fmtDate, fmtClock, fmtOff, if_neg h0,
        if_neg hneg, pad4, pad2, List.cons_append, List.nil_append]
      simp only [parseRFC3339, and_self, and_true, true_and, or_true,
        true_or, false_or, if_true]
      rw [read4_pad4 _ _ _ _ y (by omega) rfl rfl rfl rfl,
        read2_pad2 _ _ mo (by omega) rfl rfl,
        read2_pad2 _ _ d (by omega) rfl rfl,
        read2_pad2 _ _ h (by omega) rfl rfl,
        read2_pad2 _ _ mi (by omega) rfl rfl,
        read2_pad2 _ _ s (by omega) rfl rfl,
        read2_pad2 _ _ (off.natAbs / 60) (by omega) rfl rfl,
        read2_pad2 _ _ (off.natAbs % 60) (by omega) rfl rfl]
      simp only [checkDateTime]
      rw [if_pos (by exact ⟨hmo1, hmo2, hd1, hd2, hh, hmi, hs⟩)]
      simp only [Option.some.injEq, GoTime.mk.injEq, and_self, and_true,
        true_and]
      rw [if_neg (by decide)]
      omega

theorem parseSpaceForm_sqliteText (t : GoTime) (hv : t.Valid)
    (h0 : t.offMin = 0) : parseSpaceForm (sqliteDatetimeText t) = some t := by
  obtain ⟨y, mo, d, h, mi, s, off⟩ := t
  obtain ⟨hy, hmo1, hmo2, hd1, hd2, hh, hmi, hs, hoff⟩ := hv
  simp only at hy hmo1 hmo2 hd1 hd2 hh hmi hs hoff h0
  subst h0
  have hdle := GoTime.daysIn_le y mo
  simp only [sqliteDatetimeText, fmtDate, fmtClock, pad4, pad2,
    List.cons_append, List.nil_append]
  simp only [parseSpaceForm, and_self, and_true, true_and, if_true]
  rw [read4_pad4 _ _ _ _ y (by omega) rfl rfl rfl rfl,
    read2_pad2 _ _ mo (by omega) rfl rfl,
    read2_pad2 _ _ d (by omega) rfl rfl,
    read2_pad2 _ _ h (by omega) rfl rfl,
    read2_pad2 _ _ mi (by omega) rfl rfl,
    read2_pad2 _ _ s (by omega) rfl rfl]
  simp only [checkDateTime]
  rw [if_pos (by exact ⟨hmo1, hmo2, hd1, hd2, hh, hmi, hs⟩)]

theorem parseDateForm_fmtDate (t : GoTime) (hv : t.Valid) :
    parseDateForm (fmtDate t) = some (dateOnly t) := by
  obtain ⟨y, mo, d, h, mi, s, off⟩ := t
  obtain ⟨hy, hmo1, hmo2, hd1, hd2, hh, hmi, hs, hoff⟩ := hv
  simp only at hy hmo1 hmo2 hd1 hd2 hh hmi hs hoff
  have hdle := GoTime.daysIn_le y mo
  simp only [fmtDate, pad4, pad2, List.cons_append, List.nil_append]
  simp only [parseDateForm, and_self, and_true, true_and, if_true]
  rw [read4_pad4 _ _ _ _ y (by omega) rfl rfl rfl rfl,
    read2_pad2 _ _ mo (by omega) rfl rfl,
    read2_pad2 _ _ d (by omega) rfl rfl]
  unfold checkDateTime
  dsimp only []
  rw [if_pos (by exact ⟨hmo1, hmo2, hd1, hd2, by omega, by omega, by omega⟩)]
  rfl

theorem parseRFC3339_sqliteText (t : GoTime) :
    parseRFC3339 (sqliteDatetimeText t) = none := by
  simp only [sqliteDatetimeText, fmtDate, fmtClock, pad4, pad2,
    List.cons_append, List.nil_append]
  rfl

theorem parseRFC3339_fmtDate (t : GoTime) :
    parseRFC3339 (fmtDate t) = none := by
  simp only [fmtDate, pad4, pad2, List.cons_append, List.nil_append]
  rfl

theorem parseSpaceForm_fmtDate (t : GoTime) :
    parseSpaceForm (fmtDate t) = none := by
  simp only [fmtDate, pad4, pad2, List.cons_append, List.nil_append]
  rfl

theorem formatRFC3339_ne_nil (t : GoTime) : formatRFC3339 t ≠ [] := by
  simp [formatRFC3339, fmtDate, pad4, pad2]

theorem sqliteDatetimeText_ne_nil (t : GoTime) : sqliteDatetimeText t ≠ [] := by
  simp [sqliteDatetimeText, fmtDate, pad4, pad2]

theorem fmtDate_ne_nil (t : GoTime) : fmtDate t ≠ [] := by
  simp [fmtDate, pad4, pad2]

end GoTimeText

namespace Storage

open GoTimeText

/-- Reading back the canonical RFC 3339 text of a valid time yields that
time. -/
theorem parseSQLiteTime_format (t : GoTime) (hv : t.Valid) :
    parseSQLiteTime (formatRFC3339 t) = t := by
  unfold parseSQLiteTime
  rw [if_neg (formatRFC3339_ne_nil t), parseRFC3339_format t hv]

/-- Reading back the `datetime` space-separated text of a valid UTC time
yields that time. -/
theorem parseSQLiteTime_sqliteText (t : GoTime) (hv : t.Valid)
    (h0 : t.offMin = 0) : parseSQLiteTime (sqliteDatetimeText t) = t := by
  unfold parseSQLiteTime
  rw [if_neg (sqliteDatetimeText_ne_nil t), parseRFC3339_sqliteText t,
    parseSpaceForm_sqliteText t hv h0]

/-- Reading back a bare date yields the midnight UTC value of that date. -/
theorem parseSQLiteTime_fmtDate (t : GoTime) (hv : t.Valid) :
    parseSQLiteTime (fmtDate t) = dateOnly t := by
  unfold parseSQLiteTime
  rw [if_neg (fmtDate_ne_nil t), parseRFC3339_fmtDate t,
    parseSpaceForm_fmtDate t, parseDateForm_fmtDate t hv]

end Storage

namespace Model

/-- `model.Link` (link.go), with times as `GoTime` (a `nil` `ReadAt`
pointer is `none`). -/
structure Link where
  id : GoStr
  url : GoStr
  title : GoStr
  note : GoStr
  tags : GoStr
  createdAt : GoTime
  readAt : Option GoTime
deriving DecidableEq, Repr

/-- The white-space runes trimmed by Go `strings.TrimSpace` (ASCII part;
the tags handled by this program are ASCII). -/
def isSpaceRune (c : Char) : Bool :=
  c = ' ' ∨ c = '\t' ∨ c = '\n' ∨ c = '\x0b' ∨ c = '\x0c' ∨ c = '\r'

/-- Go `strings.TrimSpace`. -/
def trimSpace (s : GoStr) : GoStr :=
  ((s.dropWhile isSpaceRune).reverse.dropWhile isSpaceRune).reverse

/-- Go `strings.Split(s, ",")`: the empty string yields one empty piece. -/
def splitComma : GoStr → List GoStr
  | [] => [[]]
  | c :: rest =>
      if c = ',' then [] :: splitComma rest
      else
        match splitComma rest with
        | [] => [[c]]
        | g :: gs => (c :: g) :: gs

/-- Go `strings.Join(xs, ",")`. -/
def joinComma : List GoStr → GoStr
  | [] => []
  | [x] => x
  | x :: xs => x ++ ',' :: joinComma xs

/-- `Link.TagList` (link.go): empty tags field gives nil; otherwise split
on commas, trim each piece, drop empty pieces, preserving order. -/
def TagList (tags : GoStr) : List GoStr :=
  if tags = [] then []
  else ((splitComma tags).map trimSpace).filter (fun t => t ≠ [])

/-- The appending loop of `Link.MergeTags` (link.go): `seen` holds the
lowercased labels already present, `acc` the labels kept so far; a label
of `other` is appended exactly when its lowercase is not yet seen, and is
then marked seen. -/
def mergeLoop (seen : List GoStr) (acc : List GoStr) : List GoStr → List GoStr
  | [] => acc
  | t :: ts =>
      if seen.contains (lowerStr t) then mergeLoop seen acc ts
      else mergeLoop (lowerStr t :: seen) (acc ++ [t]) ts

/-- `Link.MergeTags` (link.go), as a function of the two serialized tag
fields: no-op when the incoming field is empty, else join the loop's
result. -/
def MergeTags (ltags otags : GoStr) : GoStr :=
  if otags = [] then ltags
  else joinComma (mergeLoop ((TagList ltags).map lowerStr) (TagList ltags) (TagList otags))

/-- Alphabetic ASCII rune. -/
def isAlphaRune (c : Char) : Bool :=
  (97 ≤ c.toNat && c.toNat ≤ 122) || (65 ≤ c.toNat && c.toNat ≤ 90)

/-- Decimal ASCII rune. -/
def isDigitRune (c : Char) : Bool := 48 ≤ c.toNat && c.toNat ≤ 57

/-- Split a URL at its first colon: `some (before, after)`. -/
def findColon : GoStr → Option (GoStr × GoStr)
  | [] => none
  | c :: rest =>
      if c = ':' then some ([], rest)
      else (findColon rest).map (fun p => (c :: p.1, p.2))

/-- An RFC 3986 scheme: a letter followed by letters, digits, `+`, `-`,
`.` — the shape `net/url.Parse` requires before the colon. -/
def validSchemeStr : GoStr → Bool
  | [] => false
  | c :: rest =>
      isAlphaRune c &&
        rest.all (fun d => isAlphaRune d || isDigitRune d || d = '+' || d = '-' || d = '.')

/-- The authority (host) component following `scheme:`: present only after
`//`, extending to the next `/`, `?` or `#`.  Models the fragment of the
standard library `net/url.Parse` that `Link.Validate` observes. -/
def hostOf : GoStr → GoStr
  | '/' :: '/' :: rest => rest.takeWhile (fun c => c ≠ '/' ∧ c ≠ '?' ∧ c ≠ '#')
  | _ => []

/-- `Link.Validate` (link.go): the URL must be non-empty, parse, and have
a non-empty scheme and host.  An empty URL has no colon and fails. -/
def Validate (l : Link) : Bool :=
  match findColon l.url with
  | none => false
  | some (sch, rest) => validSchemeStr sch && decide (hostOf rest ≠ [])

/-- `Link.IsRead` (link.go). -/
def IsRead (l : Link) : Bool := l.readAt.isSome

end Model

namespace Storage

open GoTimeText

/-- One row of the `links` table, column for column (`linkRow` in
sqlite.go); `title`, `note`, `tags`, `read_at` are nullable. -/
structure Row where
  id : GoStr
  url : GoStr
  title : Option GoStr
  note : Option GoStr
  tags : Option GoStr
  createdAt : GoStr
  readAt : Option GoStr
deriving DecidableEq, Repr

/-- The `links` table, in physical (insertion) order. -/
abbrev Store := List Row

/-- `SELECT ... FROM links WHERE url = ?` under `GetContext` (first match;
the `url` column is unique in reachable stores). -/
def findByURL (st : Store) (url : GoStr) : Option Row :=
  st.find? (fun r => r.url == url)

/-- `SELECT ... FROM links WHERE id = ?` under `GetContext`. -/
def findByID (st : Store) (id : GoStr) : Option Row :=
  st.find? (fun r => r.id == id)

/-- `linkRow.toLink` (sqlite.go): NULL text columns become empty strings;
`ReadAt` is populated only when `read_at` is non-NULL and non-empty. -/
def Row.toLink (r : Row) : Model.Link where
  id := r.id
  url := r.url
  title := r.title.getD []
  note := r.note.getD []
  tags := r.tags.getD []
  createdAt := parseSQLiteTime r.createdAt
  readAt :=
    match r.readAt with
    | some s => if s ≠ [] then some (parseSQLiteTime s) else none
    | none => none

/-- Error taxonomy of the storage layer: `model.ErrNotFound`, the
`invalid ID format` error, `model.ErrInvalidURL`, and engine-level
failures. -/
inductive StoreErr where
  | notFound
  | invalidFormat
  | invalidURL
  | storageFailure
deriving DecidableEq, Repr

/-- The failure oracle that never fires: every engine statement succeeds. -/
def noFail : Nat → Bool := fun _ => false

/-- `SQLiteStorage.Get` (sqlite.go). -/
def Get (st : Store) (id : GoStr) : Except StoreErr Model.Link :=
  if Model.ValidateShortID id = false then .error .invalidFormat
  else
    match findByID st id with
    | none => .error .notFound
    | some r => .ok r.toLink

/-- `SQLiteStorage.Add` (sqlite.go).  `now` is the wall clock, `freshId`
the value `model.GenerateShortID()` returns on this call, and `fails`
the engine-failure oracle: statement 0 is the SELECT by URL, statement 1
the first write (DELETE in the merge path, INSERT in the create path),
statement 2 the merge path re-INSERT.  The DELETE and re-INSERT are
separate autocommit statements, exactly as in the source — there is no
transaction around them. -/
def Add (fails : Nat → Bool) (now : GoTime) (freshId : GoStr) (st : Store)
    (link : Model.Link) : Store × Except StoreErr Model.Link :=
  if Model.Validate link = false then (st, .error .invalidURL)
  else if fails 0 then (st, .error .storageFailure)
  else
    match findByURL st link.url with
    | some existingRow =>
        let existingLink := existingRow.toLink
        let newTitle := if link.title ≠ [] then link.title else existingLink.title
        let newNote := if link.note ≠ [] then link.note else existingLink.note
        let newTags := Model.MergeTags existingLink.tags link.tags
        if fails 1 then (st, .error .storageFailure)
        else
          let st1 := st.filter (fun r => r.url ≠ link.url)
          let existingCreatedAt :=
            if existingLink.createdAt.isZero then formatRFC3339 now
            else formatRFC3339 existingLink.createdAt
          let readAt := existingLink.readAt.map formatRFC3339
          if fails 2 then (st1, .error .storageFailure)
          else
            let newRow : Row :=
              ⟨existingLink.id, link.url, some newTitle, some newNote,
                some newTags, existingCreatedAt, readAt⟩
            (st1 ++ [newRow], Get (st1 ++ [newRow]) existingLink.id)
    | none =>
        let readAt := link.readAt.map formatRFC3339
        let createdAtStr :=
          if link.createdAt.isZero then formatRFC3339 now
          else formatRFC3339 link.createdAt
        if fails 1 then (st, .error .storageFailure)
        else
          let newRow : Row :=
            ⟨freshId, link.url, some link.title, some link.note,
              some link.tags, createdAtStr, readAt⟩
          (st ++ [newRow],
            .ok
              { id := freshId, url := link.url, title := link.title,
                note := link.note, tags := link.tags,
                createdAt := parseSQLiteTime createdAtStr,
                readAt := link.readAt })

/-- `SQLiteStorage.Delete` (sqlite.go): validate the id, delete matching
rows, report NotFound when zero rows were affected. -/
def Delete (st : Store) (id : GoStr) : Store × Option StoreErr :=
  if Model.ValidateShortID id = false then (st, some .invalidFormat)
  else
    let st1 := st.filter (fun r => r.id ≠ id)
    if st1.length = st.length then (st1, some .notFound) else (st1, none)

/-- `SQLiteStorage.MarkRead` (sqlite.go): `UPDATE links SET read_at =
datetime('now') WHERE id = ?`, then NotFound when zero rows were
affected. -/
def MarkRead (now : GoTime) (st : Store) (id : GoStr) : Store × Option StoreErr :=
  if Model.ValidateShortID id = false then (st, some .invalidFormat)
  else
    let st1 := st.map (fun r =>
      if r.id = id then { r with readAt := some (sqliteDatetimeText now) } else r)
    if st.countP (fun r => r.id == id) = 0 then (st1, some .notFound)
    else (st1, none)

/-- `SQLiteStorage.MarkUnread` (sqlite.go): `UPDATE links SET read_at =
NULL WHERE id = ?`, then NotFound when zero rows were affected. -/
def MarkUnread (st : Store) (id : GoStr) : Store × Option StoreErr :=
  if Model.ValidateShortID id = false then (st, some .invalidFormat)
  else
    let st1 := st.map (fun r => if r.id = id then { r with readAt := none } else r)
    if st.countP (fun r => r.id == id) = 0 then (st1, some .notFound)
    else (st1, none)

/-- Text order used by the engine to compare `created_at` values:
byte-wise comparison, which on these ASCII strings is code-point
lexicographic. -/
def strLtB : GoStr → GoStr → Bool
  | [], [] => false
  | [], _ :: _ => true
  | _ :: _, [] => false
  | a :: as, b :: bs =>
      if a.toNat < b.toNat then true
      else if b.toNat < a.toNat then false
      else strLtB as bs

/-- Insert into a list kept in `created_at`-descending order. -/
def insertDesc (r : Row) : Store → Store
  | [] => [r]
  | x :: xs => if strLtB x.createdAt r.createdAt then r :: x :: xs else x :: insertDesc r xs

/-- `ORDER BY created_at DESC`. -/
def sortDesc : Store → Store
  | [] => []
  | x :: xs => insertDesc x (sortDesc xs)

/-- `storage.ReadStatus` (storage.go). -/
inductive ReadStatus where
  | unread
  | read
  | all
deriving DecidableEq, Repr

/-- `storage.ListOptions` (storage.go). -/
structure ListOptions where
  readStatus : ReadStatus
  tag : GoStr
  limit : Int
deriving DecidableEq, Repr

/-- Whether the first list is a leading segment of the second. -/
def leadsB : GoStr → GoStr → Bool
  | [], _ => true
  | _ :: _, [] => false
  | a :: as, b :: bs => a == b && leadsB as bs

/-- Whether the first list occurs contiguously inside the second. -/
def containsSeq : GoStr → GoStr → Bool
  | needle, [] => needle == []
  | needle, c :: rest => leadsB needle (c :: rest) || containsSeq needle rest

/-- SQLite `LIKE` containment with the default case-insensitive ASCII
collation: the pattern occurs inside the subject, ignoring ASCII case. -/
def likeContains (hay pat : GoStr) : Bool :=
  containsSeq (Model.lowerStr pat) (Model.lowerStr hay)

/-- `SQLiteStorage.List` (sqlite.go): filter by read state (`read_at IS
NULL` / `IS NOT NULL`), then by tag containment when a tag is given (a
NULL tags column never matches `LIKE`), order by `created_at` descending,
and apply a positive limit. -/
def ListLinks (st : Store) (opts : ListOptions) : List Model.Link :=
  let rows1 :=
    match opts.readStatus with
    | .unread => st.filter (fun r => r.readAt = none)
    | .read => st.filter (fun r => r.readAt ≠ none)
    | .all => st
  let rows2 :=
    if opts.tag ≠ [] then
      rows1.filter (fun r =>
        match r.tags with
        | none => false
        | some tg => likeContains tg opts.tag)
    else rows1
  let sorted := sortDesc rows2
  let rows3 := if opts.limit > 0 then sorted.take opts.limit.toNat else sorted
  rows3.map Row.toLink

/-- `SQLiteStorage.Export` (sqlite.go): `List` with `ReadStatusAll` and
no other filters. -/
def ExportLinks (st : Store) : List Model.Link :=
  ListLinks st ⟨.all, [], 0⟩

/-- `SQLiteStorage.Search` (sqlite.go), with the FTS5 `MATCH` predicate
abstracted as a row predicate: matching rows ordered by `created_at`
descending. -/
def Search (matchQ : Row → Bool) (st : Store) : List Model.Link :=
  (sortDesc (st.filter matchQ)).map Row.toLink

/-- The per-record loop of `SQLiteStorage.Import` (sqlite.go).  `i`
indexes the generated-ID stream, `c` the engine statement counter: per
record, statement `c` is the SELECT by URL (a hard error there aborts),
`c+1` the INSERT (absent path) or DELETE (merge path), `c+2` the merge
path re-INSERT.  An aborted call leaves every previously processed record
in place: the statements are autocommit, there is no batch transaction. -/
def ImportLoop (fails : Nat → Bool) (now : GoTime) (genId : Nat → GoStr) :
    List Model.Link → Store → Nat → Nat → Store × Option StoreErr
  | [], st, _, _ => (st, none)
  | link :: rest, st, i, c =>
      if fails c then (st, some .storageFailure)
      else
        let readAt := link.readAt.map formatRFC3339
        let createdAtStr :=
          if link.createdAt.isZero then formatRFC3339 now
          else formatRFC3339 link.createdAt
        match findByURL st link.url with
        | none =>
            let newId := if link.id = [] then genId i else link.id
            if fails (c + 1) then (st, some .storageFailure)
            else
              ImportLoop fails now genId rest
                (st ++ [⟨newId, link.url, some link.title, some link.note,
                  some link.tags, createdAtStr, readAt⟩]) (i + 1) (c + 2)
        | some existingRow =>
            let existingLink := existingRow.toLink
            let newTitle := if existingLink.title = [] then link.title else existingLink.title
            let newNote := if existingLink.note = [] then link.note else existingLink.note
            let newTags := Model.MergeTags existingLink.tags link.tags
            if fails (c + 1) then (st, some .storageFailure)
            else
              let st1 := st.filter (fun r => r.url ≠ link.url)
              let existingCreatedAt :=
                if existingLink.createdAt.isZero then createdAtStr
                else formatRFC3339 existingLink.createdAt
              if fails (c + 2) then (st1, some .storageFailure)
              else
                ImportLoop fails now genId rest
                  (st1 ++ [⟨existingLink.id, link.url, some newTitle,
                    some newNote, some newTags, existingCreatedAt, readAt⟩])
                  (i + 1) (c + 3)

/-- `SQLiteStorage.Import` (sqlite.go). -/
def Import (fails : Nat → Bool) (now : GoTime) (genId : Nat → GoStr)
    (st : Store) (links : List Model.Link) : Store × Option StoreErr :=
  ImportLoop fails now genId links st 0 0

end Storage

namespace Migrations

/-- The observable state of the database under migration: the versions
whose schema-changing statements have been executed (in execution order),
and the rows of the `schema_migrations` ledger (in insertion order).
`getAppliedMigrations` creates the ledger table when missing; the empty
list models the fresh table. -/
structure DB where
  schemaRuns : List Int
  ledger : List Int
deriving DecidableEq, Repr

/-- Decimal value of a digit string. -/
def digitsToNat (s : GoStr) : Nat :=
  s.foldl (fun acc c => 10 * acc + (c.toNat - 48)) 0

/-- Whether a string is one or more decimal digits. -/
def allDigits (s : GoStr) : Bool := decide (s ≠ []) && s.all GoTimeText.goIsDigit

/-- Go `strconv.Atoi`: optional sign, then digits. -/
def goAtoi : GoStr → Option Int
  | '-' :: rest => if allDigits rest then some (-(digitsToNat rest : Int)) else none
  | '+' :: rest => if allDigits rest then some ((digitsToNat rest : Int)) else none
  | s => if allDigits s then some ((digitsToNat s : Int)) else none

/-- The version of a migration file: `strconv.Atoi` of the part of the
filename before the first underscore (`strings.Split(name, "_")[0]`). -/
def versionOf (filename : GoStr) : Option Int :=
  goAtoi (filename.takeWhile (fun c => c ≠ '_'))

/-- Insert into a list kept in ascending byte order (`sort.Strings`). -/
def insertAsc (x : GoStr) : List GoStr → List GoStr
  | [] => [x]
  | y :: ys => if Storage.strLtB x y then x :: y :: ys else y :: insertAsc x ys

/-- `sort.Strings`: ascending byte-wise order. -/
def sortStrs : List GoStr → List GoStr
  | [] => []
  | x :: xs => insertAsc x (sortStrs xs)

/-- The body of `runMigrations` (migrations.go) over the sorted file
list.  A file without a numeric version prefix is skipped; an
already-ledgered version is skipped; otherwise the version's statements
and its ledger row are one transaction: if the statements fail
(`failsExec`) or the ledger insert fails (`failsRecord`), the transaction
rolls back — the database is unchanged — and the whole run returns the
error. -/
def runLoop (failsExec failsRecord : Int → Bool) :
    List GoStr → DB → DB × Option Storage.StoreErr
  | [], db => (db, none)
  | f :: fs, db =>
      match versionOf f with
      | none => runLoop failsExec failsRecord fs db
      | some v =>
          if db.ledger.contains v then runLoop failsExec failsRecord fs db
          else if failsExec v then (db, some .storageFailure)
          else if failsRecord v then (db, some .storageFailure)
          else runLoop failsExec failsRecord fs ⟨db.schemaRuns ++ [v], db.ledger ++ [v]⟩

/-- `runMigrations` (migrations.go): sort the embedded `.sql` filenames,
then apply pending versions in that order. -/
def runMigrations (failsExec failsRecord : Int → Bool) (files : List GoStr)
    (db : DB) : DB × Option Storage.StoreErr :=
  runLoop failsExec failsRecord (sortStrs files) db

/-- The `.sql` files embedded in the binary (`migrations/*.sql`). -/
def migrationFiles : List GoStr := ["001_initial.sql".data, "002_fts5.sql".data]

/-- The oracle under which no migration statement fails. -/
def noFailI : Int → Bool := fun _ => false

end Migrations

namespace Storage

theorem mem_insertDesc (r x : Row) (l : Store) :
    x ∈ insertDesc r l ↔ x = r ∨ x ∈ l := by
  induction l with
  | nil => simp [insertDesc]
  | cons y ys ih =>
      simp only [insertDesc]
      split
      · simp only [List.mem_cons]
      · simp only [List.mem_cons, ih]
        tauto

theorem mem_sortDesc (x : Row) (l : Store) : x ∈ sortDesc l ↔ x ∈ l := by
  induction l with
  | nil => simp [sortDesc]
  | cons y ys ih => simp [sortDesc, mem_insertDesc, ih]

theorem listLinks_mem (st : Store) (opts : ListOptions) (l : Model.Link)
    (hl : l ∈ ListLinks st opts) : ∃ r, r ∈ st ∧ l = Row.toLink r := by
  unfold ListLinks at hl
  simp only [List.mem_map] at hl
  obtain ⟨r, hr, rfl⟩ := hl
  refine ⟨r, ?_, rfl⟩
  have step : ∀ l1 : Store, r ∈ l1 →
      (l1 = match opts.readStatus with
        | ReadStatus.unread => st.filter (fun x => x.readAt = none)
        | ReadStatus.read => st.filter (fun x => x.readAt ≠ none)
        | ReadStatus.all => st) → r ∈ st := by
    intro l1 h1 h2
    subst h2
    split at h1
    · exact List.mem_of_mem_filter h1
    · exact List.mem_of_mem_filter h1
    · exact h1
  split at hr
  all_goals
    first
      | replace hr := List.take_subset _ _ hr
      | skip
  all_goals rw [mem_sortDesc] at hr
  all_goals
    split at hr
  all_goals
    first
      | replace hr := List.mem_of_mem_filter hr
      | skip
  all_goals exact step _ hr rfl

end Storage

/-- C10: a stored row is returned with `ReadAt` absent exactly when its
`read_at` column is NULL or the empty string, and every link that `Get`,
`List`, `Export` or `Search` returns is the `toLink` image of a stored
row (hence satisfies that equivalence). -/
theorem C10_readAt_nil_iff_null_or_empty :
    (∀ r : Storage.Row, (Storage.Row.toLink r).readAt = none ↔
        (r.readAt = none ∨ r.readAt = some [])) ∧
    (∀ st id l, Storage.Get st id = .ok l → ∃ r, r ∈ st ∧ l = Storage.Row.toLink r) ∧
    (∀ st opts l, l ∈ Storage.ListLinks st opts →
        ∃ r, r ∈ st ∧ l = Storage.Row.toLink r) ∧
    (∀ st l, l ∈ Storage.ExportLinks st → ∃ r, r ∈ st ∧ l = Storage.Row.toLink r) ∧
    (∀ mq st l, l ∈ Storage.Search mq st → ∃ r, r ∈ st ∧ l = Storage.Row.toLink r) := by
  refine ⟨?_, ?_, ?_, ?_, ?_⟩
  · intro r
    unfold Storage.Row.toLink
    match hra : r.readAt with
    | none => simp
    | some s =>
        by_cases hs : s = []
        · subst hs; simp
        · simp [hs]
  · intro st id l hget
    unfold Storage.Get at hget
    split at hget
    · exact absurd hget (by simp)
    · split at hget
      · exact absurd hget (by simp)
      · next r hr =>
          refine ⟨r, List.mem_of_find?_eq_some hr, ?_⟩
          cases hget
          rfl
  · exact Storage.listLinks_mem
  · intro st l hl
    exact Storage.listLinks_mem st _ l hl
  · intro mq st l hl
    unfold Storage.Search at hl
    simp only [List.mem_map] at hl
    obtain ⟨r, hr, rfl⟩ := hl
    rw [Storage.mem_sortDesc] at hr
    exact ⟨r, List.mem_of_mem_filter hr, rfl⟩

/-- Witness for C10 at concrete inputs: a row whose `read_at` is the
empty string is returned unread by `Get`. -/
theorem C10_witness :
    ((Storage.Row.toLink ⟨"aaaaaaaaaaaaaaaaaaaaaaaaaa".data, "https://a.test".data,
        none, none, none, "2024-01-01T12:00:00Z".data, some []⟩).readAt = none) ∧
    (∃ r, r ∈ ([⟨"aaaaaaaaaaaaaaaaaaaaaaaaaa".data, "https://a.test".data,
        none, none, none, "2024-01-01T12:00:00Z".data, some []⟩] : Storage.Store) ∧
      Storage.Row.toLink ⟨"aaaaaaaaaaaaaaaaaaaaaaaaaa".data, "https://a.test".data,
        none, none, none, "2024-01-01T12:00:00Z".data, some []⟩ = Storage.Row.toLink r) := by
  constructor
  · exact (C10_readAt_nil_iff_null_or_empty.1 _).mpr (Or.inr rfl)
  · exact C10_readAt_nil_iff_null_or_empty.2.1 _ "aaaaaaaaaaaaaaaaaaaaaaaaaa".data _ rfl

/-- C7: on an id that fails `ValidateShortID`, `Get`, `Delete`, `MarkRead`
and `MarkUnread` fail with the format error (distinct from NotFound) and
leave the store unchanged; on a well-formed id with no matching row —
for instance after that row was deleted — `Get`, `Delete` and `MarkRead`
fail with NotFound (and the store is unchanged). -/
theorem C7_invalid_and_missing_ids :
    (∀ st id, Model.ValidateShortID id = false →
        Storage.Get st id = .error .invalidFormat ∧
        Storage.Delete st id = (st, some .invalidFormat) ∧
        (∀ now, Storage.MarkRead now st id = (st, some .invalidFormat)) ∧
        Storage.MarkUnread st id = (st, some .invalidFormat)) ∧
    (∀ st id, Model.ValidateShortID id = true → Storage.findByID st id = none →
        Storage.Get st id = .error .notFound ∧
        Storage.Delete st id = (st, some .notFound) ∧
        (∀ now, Storage.MarkRead now st id = (st, some .notFound))) ∧
    (∀ st id, Model.ValidateShortID id = true →
        Storage.findByID (Storage.Delete st id).1 id = none) ∧
    Storage.StoreErr.invalidFormat ≠ Storage.StoreErr.notFound := by
  refine ⟨?_, ?_, ?_, by simp⟩
  · intro st id h
    refine ⟨by simp [Storage.Get, h], by simp [Storage.Delete, h],
      fun now => by simp [Storage.MarkRead, h], by simp [Storage.MarkUnread, h]⟩
  · intro st id hval hfind
    have hall : ∀ r ∈ st, ¬(r.id == id) = true := List.find?_eq_none.mp hfind
    have hallne : ∀ r ∈ st, r.id ≠ id := by
      intro r hr
      have := hall r hr
      simpa using this
    have hfil : st.filter (fun r => r.id ≠ id) = st := by
      rw [List.filter_eq_self]
      intro r hr
      simpa using hallne r hr
    have hcount : st.countP (fun r => r.id == id) = 0 := by
      rw [List.countP_eq_zero]
      intro r hr
      simpa using hallne r hr
    have hmapid : ∀ f : Storage.Row → Storage.Row,
        (∀ r ∈ st, f r = r) → st.map f = st := by
      intro f hf
      rw [List.map_congr_left hf]
      exact List.map_id st
    refine ⟨?_, ?_, ?_⟩
    · simp [Storage.Get, hval, hfind]
    · simp only [Storage.Delete, hval, Bool.true_eq_false, if_neg, if_false,
        hfil, if_pos rfl]
      simp
    · intro now
      simp only [Storage.MarkRead, hval, Bool.true_eq_false, if_false, hcount,
        if_pos rfl]
      rw [hmapid _ (fun r hr => by simp [hallne r hr])]
      simp
  · intro st id hval
    simp only [Storage.Delete, hval, Bool.true_eq_false, if_false]
    split <;>
      (unfold Storage.findByID
       simp only []
       rw [List.find?_eq_none]
       intro r hr
       have hne : r.id ≠ id := by simpa using (List.of_mem_filter hr)
       simpa using hne)

/-- Witness for C7 at concrete inputs: the malformed id `a!` and a
well-formed absent id against the empty store. -/
theorem C7_witness :
    Storage.Get [] "a!".data = .error .invalidFormat ∧
    Storage.Delete [] "a!".data = ([], some .invalidFormat) ∧
    Storage.Get [] "aaaaaaaaaaaaaaaaaaaaaaaaaa".data = .error .notFound ∧
    Storage.Delete [] "aaaaaaaaaaaaaaaaaaaaaaaaaa".data = ([], some .notFound) ∧
    Storage.MarkRead ⟨2024, 1, 2, 10, 30, 0, 0⟩ [] "aaaaaaaaaaaaaaaaaaaaaaaaaa".data =
      ([], some .notFound) := by
  have h1 := (C7_invalid_and_missing_ids.1 [] "a!".data (by decide))
  have h2 := (C7_invalid_and_missing_ids.2.1 [] "aaaaaaaaaaaaaaaaaaaaaaaaaa".data
    (by decide) rfl)
  exact ⟨h1.1, h1.2.1, h2.1, h2.2.1, h2.2.2 _⟩

/-- C9: on a URL not yet stored, `Add` stores and returns the freshly
generated identifier and ignores any caller-supplied id entirely, while
`Import` keeps a non-empty incoming id and generates one only when the
incoming record has none. -/
theorem C9_add_generates_import_preserves_id :
    (∀ now freshId st (link : Model.Link),
        Model.Validate link = true → Storage.findByURL st link.url = none →
        ∃ row : Storage.Row,
          (Storage.Add Storage.noFail now freshId st link).1 = st ++ [row] ∧
          row.id = freshId ∧
          ∃ res, (Storage.Add Storage.noFail now freshId st link).2 = .ok res ∧
            res.id = freshId) ∧
    (∀ fails now freshId st (link : Model.Link) idArb,
        Storage.Add fails now freshId st { link with id := idArb } =
          Storage.Add fails now freshId st link) ∧
    (∀ now genId st (link : Model.Link),
        Storage.findByURL st link.url = none → link.id ≠ [] →
        ∃ row : Storage.Row,
          Storage.Import Storage.noFail now genId st [link] = (st ++ [row], none) ∧
          row.id = link.id) ∧
    (∀ now genId st (link : Model.Link),
        Storage.findByURL st link.url = none → link.id = [] →
        ∃ row : Storage.Row,
          Storage.Import Storage.noFail now genId st [link] = (st ++ [row], none) ∧
          row.id = genId 0) := by
  refine ⟨?_, ?_, ?_, ?_⟩
  · intro now freshId st link hval hfound
    simp only [Storage.Add, hval, Bool.true_eq_false, if_false, Storage.noFail,
      Bool.false_eq_true, hfound]
    exact ⟨_, rfl, rfl, _, rfl, rfl⟩
  · intro fails now freshId st link idArb
    cases link
    rfl
  · intro now genId st link hfound hid
    simp only [Storage.Import, Storage.ImportLoop, Storage.noFail,
      Bool.false_eq_true, if_false, hfound, if_neg hid]
    exact ⟨_, rfl, rfl⟩
  · intro now genId st link hfound hid
    simp only [Storage.Import, Storage.ImportLoop, Storage.noFail,
      Bool.false_eq_true, if_false, hfound, if_pos hid]
    exact ⟨_, rfl, rfl⟩

/-- Witness for C9 at concrete inputs: adding and importing
`https://a.test` into the empty store. -/
theorem C9_witness :
    (∃ row : Storage.Row,
        (Storage.Add Storage.noFail ⟨2024, 1, 2, 10, 30, 0, 0⟩
            "bbbbbbbbbbbbbbbbbbbbbbbbbb".data []
            ⟨"zzzzzzzzzz".data, "https://a.test".data, [], [], [], GoTime.zero, none⟩).1 =
          [] ++ [row] ∧
        row.id = "bbbbbbbbbbbbbbbbbbbbbbbbbb".data ∧
        ∃ res, (Storage.Add Storage.noFail ⟨2024, 1, 2, 10, 30, 0, 0⟩
            "bbbbbbbbbbbbbbbbbbbbbbbbbb".data []
            ⟨"zzzzzzzzzz".data, "https://a.test".data, [], [], [], GoTime.zero, none⟩).2 = .ok res ∧
          res.id = "bbbbbbbbbbbbbbbbbbbbbbbbbb".data) ∧
    (∃ row : Storage.Row,
        Storage.Import Storage.noFail ⟨2024, 1, 2, 10, 30, 0, 0⟩
            (fun _ => "dddddddddddddddddddddddddd".data) []
            [⟨"cccccccccc".data, "https://a.test".data, [], [], [], GoTime.zero, none⟩] =
          ([] ++ [row], none) ∧
        row.id = "cccccccccc".data) := by
  constructor
  · exact C9_add_generates_import_preserves_id.1 _ _ [] _ (by decide) rfl
  · exact C9_add_generates_import_preserves_id.2.2.1 _ _ [] _ rfl (by decide)

/-- C3 (code bug): the merge-update path of `Add` and of `Import` runs
its DELETE and re-INSERT as two separate autocommit statements; when the
re-INSERT fails after the DELETE, the original row is gone — the store
is left without any row for the URL, and that URL-absent state is the
state a concurrent reader would observe between the two statements. -/
theorem C3_merge_update_not_atomic :
    Storage.findByURL
        [⟨"aaaaaaaaaaaaaaaaaaaaaaaaaa".data, "https://a.test".data,
          some "A".data, none, none, "2024-01-01T12:00:00Z".data, none⟩]
        "https://a.test".data =
      some ⟨"aaaaaaaaaaaaaaaaaaaaaaaaaa".data, "https://a.test".data,
        some "A".data, none, none, "2024-01-01T12:00:00Z".data, none⟩ ∧
    (Storage.Add (fun n => n == 2) ⟨2024, 1, 2, 10, 30, 0, 0⟩
        "bbbbbbbbbbbbbbbbbbbbbbbbbb".data
        [⟨"aaaaaaaaaaaaaaaaaaaaaaaaaa".data, "https://a.test".data,
          some "A".data, none, none, "2024-01-01T12:00:00Z".data, none⟩]
        ⟨[], "https://a.test".data, "B".data, [], [], GoTime.zero, none⟩).1 = [] ∧
    (Storage.Add (fun n => n == 2) ⟨2024, 1, 2, 10, 30, 0, 0⟩
        "bbbbbbbbbbbbbbbbbbbbbbbbbb".data
        [⟨"aaaaaaaaaaaaaaaaaaaaaaaaaa".data, "https://a.test".data,
          some "A".data, none, none, "2024-01-01T12:00:00Z".data, none⟩]
        ⟨[], "https://a.test".data, "B".data, [], [], GoTime.zero, none⟩).2 =
      .error .storageFailure ∧
    (Storage.Import (fun n => n == 2) ⟨2024, 1, 2, 10, 30, 0, 0⟩
        (fun _ => "dddddddddddddddddddddddddd".data)
        [⟨"aaaaaaaaaaaaaaaaaaaaaaaaaa".data, "https://a.test".data,
          some "A".data, none, none, "2024-01-01T12:00:00Z".data, none⟩]
        [⟨[], "https://a.test".data, "B".data, [], [], GoTime.zero, none⟩]) =
      ([], some .storageFailure) := by
  exact ⟨rfl, by decide, rfl, by decide⟩

/-- Counterexample to C4 as stated: a record whose URL fails
`Link.Validate` (empty URL) is not skipped by `Import` — it is applied:
the final store contains the invalid record as a row. -/
theorem C4_counterexample_invalid_record_is_applied :
    Model.Validate ⟨"cccccccccc".data, [], "T".data, [], [], GoTime.zero, none⟩ = false ∧
    Storage.Import Storage.noFail ⟨2024, 1, 2, 10, 30, 0, 0⟩
        (fun _ => "dddddddddddddddddddddddddd".data) []
        [⟨"cccccccccc".data, [], "T".data, [], [], GoTime.zero, none⟩] =
      ([⟨"cccccccccc".data, [], some "T".data, some [], some [],
          GoTimeText.formatRFC3339 ⟨2024, 1, 2, 10, 30, 0, 0⟩, none⟩], none) := by
  exact ⟨rfl, by decide⟩

/-- C4 as amended: `Import` performs no per-record identity or URL
validation — a record failing `Link.Validate` is applied like any other
and processing continues with the remaining records — records are
processed independently in order, and the first hard storage error
aborts the whole call while leaving every previously applied record of
the batch in place (no rollback). -/
theorem C4_amended_import_no_validation_no_rollback :
    (∀ now genId st (link : Model.Link) rest i c,
        Model.Validate link = false → Storage.findByURL st link.url = none →
        link.id ≠ [] →
        Storage.ImportLoop Storage.noFail now genId (link :: rest) st i c =
          Storage.ImportLoop Storage.noFail now genId rest
            (st ++ [⟨link.id, link.url, some link.title, some link.note,
              some link.tags,
              (if link.createdAt.isZero then GoTimeText.formatRFC3339 now
               else GoTimeText.formatRFC3339 link.createdAt),
              link.readAt.map GoTimeText.formatRFC3339⟩]) (i + 1) (c + 2)) ∧
    (∀ now genId st (r1 r2 : Model.Link),
        Storage.findByURL st r1.url = none →
        ∃ row1 : Storage.Row,
          Storage.Import (fun n => decide (2 ≤ n)) now genId st [r1, r2] =
            (st ++ [row1], some .storageFailure) ∧
          (Storage.Import Storage.noFail now genId st [r1]).1 = st ++ [row1]) := by
  constructor
  · intro now genId st link rest i c hval hfound hid
    simp only [Storage.ImportLoop, Storage.noFail, Bool.false_eq_true,
      if_false, hfound, if_neg hid]
  · intro now genId st r1 r2 hfound
    refine ⟨⟨(if r1.id = [] then genId 0 else r1.id), r1.url, some r1.title,
      some r1.note, some r1.tags,
      (if r1.createdAt.isZero then GoTimeText.formatRFC3339 now
       else GoTimeText.formatRFC3339 r1.createdAt),
      r1.readAt.map GoTimeText.formatRFC3339⟩, ?_, ?_⟩
    · simp only [Storage.Import, Storage.ImportLoop, hfound]
      norm_num
    · simp only [Storage.Import, Storage.ImportLoop, Storage.noFail,
        Bool.false_eq_true, if_false, hfound]

/-- Witness for C4 at concrete inputs: a batch of two records against the
empty store, where the engine fails from the third statement on. -/
theorem C4_witness :
    Storage.ImportLoop Storage.noFail ⟨2024, 1, 2, 10, 30, 0, 0⟩
        (fun _ => "dddddddddddddddddddddddddd".data)
        [⟨"cccccccccc".data, [], "T".data, [], [], GoTime.zero, none⟩] [] 0 0 =
      Storage.ImportLoop Storage.noFail ⟨2024, 1, 2, 10, 30, 0, 0⟩
        (fun _ => "dddddddddddddddddddddddddd".data) []
        ([] ++ [⟨"cccccccccc".data, [], some "T".data, some [], some [],
          (if GoTime.zero.isZero then
            GoTimeText.formatRFC3339 ⟨2024, 1, 2, 10, 30, 0, 0⟩
           else GoTimeText.formatRFC3339 GoTime.zero),
          (none : Option GoTime).map GoTimeText.formatRFC3339⟩]) 1 2 ∧
    ∃ row1 : Storage.Row,
      Storage.Import (fun n => decide (2 ≤ n)) ⟨2024, 1, 2, 10, 30, 0, 0⟩
          (fun _ => "dddddddddddddddddddddddddd".data) []
          [⟨"cccccccccc".data, "https://a.test".data, [], [], [], GoTime.zero, none⟩,
           ⟨"eeeeeeeeee".data, "https://b.test".data, [], [], [], GoTime.zero, none⟩] =
        ([] ++ [row1], some .storageFailure) ∧
      (Storage.Import Storage.noFail ⟨2024, 1, 2, 10, 30, 0, 0⟩
          (fun _ => "dddddddddddddddddddddddddd".data) []
          [⟨"cccccccccc".data, "https://a.test".data, [], [], [], GoTime.zero, none⟩]).1 =
        [] ++ [row1] := by
  constructor
  · exact C4_amended_import_no_validation_no_rollback.1 _ _ [] _ [] 0 0 rfl rfl
      (by decide)
  · exact C4_amended_import_no_validation_no_rollback.2 _ _ [] _ _ rfl

namespace Model

theorem contains_eq_mem (l : List GoStr) (x : GoStr) :
    l.contains x = true ↔ x ∈ l := List.elem_iff

theorem trimSpace_eq_rdrop (s : GoStr) :
    trimSpace s = List.rdropWhile isSpaceRune (s.dropWhile isSpaceRune) := rfl

theorem trimSpace_idem (s : GoStr) : trimSpace (trimSpace s) = trimSpace s := by
  rw [trimSpace_eq_rdrop, trimSpace_eq_rdrop]
  generalize hu : s.dropWhile isSpaceRune = u
  have h1 : List.dropWhile isSpaceRune u = u := by
    rw [← hu]
    exact List.dropWhile_idempotent _ _
  have h2 : List.dropWhile isSpaceRune (List.rdropWhile isSpaceRune u) =
      List.rdropWhile isSpaceRune u := by
    rw [List.dropWhile_eq_self_iff]
    intro hl
    obtain ⟨t, ht⟩ := List.rdropWhile_prefix isSpaceRune (l := u)
    have hlu : 0 < u.length := by
      rw [← ht]
      simp only [List.length_append]
      omega
    have hget : (List.rdropWhile isSpaceRune u).get ⟨0, hl⟩ = u.get ⟨0, hlu⟩ := by
      have hcast : ∀ (v : List Char) (hv : v = u) (h0 : 0 < v.length),
          v.get ⟨0, h0⟩ = u.get ⟨0, hlu⟩ := by
        intro v hv h0
        subst hv
        rfl
      rw [← hcast (List.rdropWhile isSpaceRune u ++ t) ht
        (by simp only [List.length_append]; omega)]
      exact (List.get_append 0 hl).symm
    rw [hget]
    exact (List.dropWhile_eq_self_iff.mp h1) hlu
  rw [h2, List.rdropWhile_idempotent]

theorem mem_of_mem_trimSpace (s : GoStr) (c : Char) (h : c ∈ trimSpace s) :
    c ∈ s := by
  rw [trimSpace_eq_rdrop] at h
  have h1 := (List.rdropWhile_prefix isSpaceRune
    (l := s.dropWhile isSpaceRune)).sublist.subset h
  exact (List.dropWhile_suffix isSpaceRune).sublist.subset h1

theorem splitComma_ne_nil (s : GoStr) : splitComma s ≠ [] := by
  induction s with
  | nil => simp [splitComma]
  | cons c rest ih =>
      simp only [splitComma]
      split
      · simp
      · split
        · simp
        · simp

theorem splitComma_no_comma (s : GoStr) :
    ∀ g ∈ splitComma s, ',' ∉ g := by
  induction s with
  | nil =>
      intro g hg
      simp only [splitComma, List.mem_singleton] at hg
      subst hg
      simp
  | cons c rest ih =>
      intro g hg
      simp only [splitComma] at hg
      by_cases hc : c = ','
      · rw [if_pos hc] at hg
        rcases List.mem_cons.mp hg with rfl | hg'
        · simp
        · exact ih g hg'
      · rw [if_neg hc] at hg
        rcases hsp : splitComma rest with _ | ⟨g0, gs⟩
        · exact absurd hsp (splitComma_ne_nil rest)
        · rw [hsp] at hg
          rcases List.mem_cons.mp hg with rfl | hg'
          · intro hmem
            rcases List.mem_cons.mp hmem with h | h
            · exact hc h.symm
            · exact ih g0 (by rw [hsp]; exact List.mem_cons_self _ _) h
          · exact ih g (by rw [hsp]; exact List.mem_cons_of_mem _ hg')

theorem splitComma_of_no_comma (x : GoStr) (hx : ',' ∉ x) :
    splitComma x = [x] := by
  induction x with
  | nil => rfl
  | cons c rest ih =>
      have hc : c ≠ ',' := by
        rintro rfl
        exact hx (List.mem_cons_self _ _)
      have hrest : ',' ∉ rest := fun h => hx (List.mem_cons_of_mem _ h)
      simp only [splitComma, if_neg hc, ih hrest]

theorem splitComma_append_comma (x z : GoStr) (hx : ',' ∉ x) :
    splitComma (x ++ ',' :: z) = x :: splitComma z := by
  induction x with
  | nil => simp [splitComma]
  | cons c rest ih =>
      have hc : c ≠ ',' := by
        rintro rfl
        exact hx (List.mem_cons_self _ _)
      have hrest : ',' ∉ rest := fun h => hx (List.mem_cons_of_mem _ h)
      simp only [List.cons_append, splitComma, if_neg hc, List.append_eq,
        ih hrest]

theorem joinComma_ne_nil (x : GoStr) (rest : List GoStr) (hx : x ≠ []) :
    joinComma (x :: rest) ≠ [] := by
  cases rest with
  | nil => simpa [joinComma] using hx
  | cons y ys =>
      simp only [joinComma]
      intro h
      rcases x with _ | ⟨c, cs⟩
      · exact hx rfl
      · simp at h

theorem joinComma_split (xs : List GoStr) (hne : xs ≠ [])
    (hcf : ∀ x ∈ xs, ',' ∉ x) : splitComma (joinComma xs) = xs := by
  induction xs with
  | nil => cases hne rfl
  | cons x rest ih =>
      cases rest with
      | nil =>
          simpa [joinComma] using
            splitComma_of_no_comma x (hcf x (List.mem_cons_self _ _))
      | cons y ys =>
          have h1 : joinComma (x :: y :: ys) = x ++ ',' :: joinComma (y :: ys) := rfl
          rw [h1, splitComma_append_comma x _ (hcf x (List.mem_cons_self _ _)),
            ih (by simp) (fun a ha => hcf a (List.mem_cons_of_mem _ ha))]

theorem tagList_joinComma (xs : List GoStr)
    (hgood : ∀ x ∈ xs, x ≠ [] ∧ ',' ∉ x ∧ trimSpace x = x) :
    TagList (joinComma xs) = xs := by
  cases xs with
  | nil => rfl
  | cons x rest =>
      have hne : joinComma (x :: rest) ≠ [] :=
        joinComma_ne_nil x rest (hgood x (List.mem_cons_self _ _)).1
      unfold TagList
      rw [if_neg hne,
        joinComma_split (x :: rest) (by simp)
          (fun a ha => (hgood a ha).2.1),
        List.map_congr_left (fun a ha => (hgood a ha).2.2), List.map_id',
        List.filter_eq_self.mpr (fun a ha => by simpa using (hgood a ha).1)]

theorem tagList_good (tags : GoStr) :
    ∀ t ∈ TagList tags, t ≠ [] ∧ ',' ∉ t ∧ trimSpace t = t := by
  intro t ht
  unfold TagList at ht
  split at ht
  · simp at ht
  · have h1 := List.of_mem_filter ht
    have h2 := List.mem_of_mem_filter ht
    simp only [List.mem_map] at h2
    obtain ⟨p, hp, rfl⟩ := h2
    refine ⟨by simpa using h1, ?_, trimSpace_idem p⟩
    intro hc
    exact splitComma_no_comma tags p hp (mem_of_mem_trimSpace p ',' hc)

theorem mergeLoop_sound (P : GoStr → Prop) :
    ∀ (ts acc : List GoStr) (seen : List GoStr), (∀ t ∈ acc, P t) →
      (∀ t ∈ ts, P t) → ∀ x ∈ mergeLoop seen acc ts, P x := by
  intro ts
  induction ts with
  | nil =>
      intro acc seen ha _ x hx
      exact ha x hx
  | cons t ts ih =>
      intro acc seen ha ht x hx
      rw [mergeLoop] at hx
      split at hx
      · exact ih acc seen ha (fun u hu => ht u (List.mem_cons_of_mem _ hu)) x hx
      · refine ih (acc ++ [t]) _ ?_
          (fun u hu => ht u (List.mem_cons_of_mem _ hu)) x hx
        intro u hu
        rcases List.mem_append.mp hu with h | h
        · exact ha u h
        · rw [List.mem_singleton] at h
          rw [h]
          exact ht t (List.mem_cons_self _ _)

end Model

/-- The tag union as the specification words it: the existing labels
first, then each newly supplied label appended exactly when no label
already collected equals it ignoring case, keeping its original casing. -/
def specTagUnion (ex : List GoStr) : List GoStr → List GoStr
  | [] => ex
  | t :: ts =>
      if (ex.map Model.lowerStr).contains (Model.lowerStr t) then specTagUnion ex ts
      else specTagUnion (ex ++ [t]) ts

namespace Model

theorem mergeLoop_eq_specTagUnion :
    ∀ (ts acc seen : List GoStr),
      (∀ x, seen.contains x = true ↔ x ∈ acc.map lowerStr) →
      mergeLoop seen acc ts = specTagUnion acc ts := by
  intro ts
  induction ts with
  | nil => intro acc seen _; rfl
  | cons t ts ih =>
      intro acc seen h
      rw [mergeLoop, specTagUnion]
      by_cases hx : lowerStr t ∈ acc.map lowerStr
      · rw [if_pos ((h _).mpr hx), if_pos ((contains_eq_mem _ _).mpr hx)]
        exact ih acc seen h
      · rw [if_neg (fun hc => hx ((h _).mp hc)),
          if_neg (fun hc => hx ((contains_eq_mem _ _).mp hc))]
        apply ih
        intro x
        constructor
        · intro hc
          simp only [List.contains_cons, Bool.or_eq_true] at hc
          rcases hc with hc | hc
          · rw [List.map_append]
            have : x = lowerStr t := by simpa using hc
            subst this
            simp
          · rw [List.map_append]
            exact List.mem_append.mpr (Or.inl ((h x).mp hc))
        · intro hm
          rw [List.map_append] at hm
          rcases List.mem_append.mp hm with hm | hm
          · simp only [List.contains_cons, Bool.or_eq_true]
            exact Or.inr ((h x).mpr hm)
          · simp only [List.map_cons, List.map_nil, List.mem_singleton] at hm
            subst hm
            simp [List.contains_cons]

theorem mergeTags_tagList (lt ot : GoStr) :
    TagList (MergeTags lt ot) = specTagUnion (TagList lt) (TagList ot) := by
  unfold MergeTags
  by_cases ho : ot = []
  · rw [if_pos ho, ho]
    rfl
  · rw [if_neg ho]
    have hsound := mergeLoop_sound (fun t => t ≠ [] ∧ ',' ∉ t ∧ trimSpace t = t)
      (TagList ot) (TagList lt) ((TagList lt).map lowerStr) (tagList_good lt)
      (tagList_good ot)
    rw [tagList_joinComma _ hsound]
    exact mergeLoop_eq_specTagUnion (TagList ot) (TagList lt) _
      (fun x => contains_eq_mem _ _)

end Model

/-- C1: merging `Add` on an already-stored URL keeps the row's id; keeps
`created_at` and `read_at` at the same time values; replaces the title
only when the new title is non-empty (otherwise keeping the old one), the
note likewise; and stores as tags the case-insensitive union of the
existing tags followed by the newly supplied tags, appending a new tag
only when no tag already collected equals it ignoring case, first-seen
casing preserved. -/
theorem C1_add_merge_semantics (now : GoTime) (freshId : GoStr)
    (st : Storage.Store) (link : Model.Link) (r : Storage.Row)
    (hval : Model.Validate link = true)
    (hfound : Storage.findByURL st link.url = some r)
    (hcv : (Storage.parseSQLiteTime r.createdAt).Valid)
    (hcnz : (Storage.parseSQLiteTime r.createdAt).isZero = false)
    (hrv : ∀ s0, r.readAt = some s0 → s0 ≠ [] →
      (Storage.parseSQLiteTime s0).Valid) :
    ∃ row' : Storage.Row,
      (Storage.Add Storage.noFail now freshId st link).1 =
        st.filter (fun x => x.url ≠ link.url) ++ [row'] ∧
      row'.id = r.id ∧
      row'.url = link.url ∧
      row'.title = some (if link.title ≠ [] then link.title
        else (Storage.Row.toLink r).title) ∧
      row'.note = some (if link.note ≠ [] then link.note
        else (Storage.Row.toLink r).note) ∧
      row'.tags = some (Model.MergeTags (Storage.Row.toLink r).tags link.tags) ∧
      Model.TagList (row'.tags.getD []) =
        specTagUnion (Model.TagList (Storage.Row.toLink r).tags)
          (Model.TagList link.tags) ∧
      Storage.parseSQLiteTime row'.createdAt = Storage.parseSQLiteTime r.createdAt ∧
      (Storage.Row.toLink row').readAt = (Storage.Row.toLink r).readAt := by
  simp only [Storage.Add, hval, Bool.true_eq_false, if_false, Storage.noFail,
    Bool.false_eq_true, hfound]
  refine ⟨_, rfl, rfl, rfl, rfl, rfl, rfl, ?_, ?_, ?_⟩
  · simp only [Option.getD_some]
    exact Model.mergeTags_tagList _ _
  · simp only []
    rw [if_neg (by rw [show (Storage.Row.toLink r).createdAt =
        Storage.parseSQLiteTime r.createdAt from rfl, hcnz]; simp)]
    exact Storage.parseSQLiteTime_format _ hcv
  · match hra : r.readAt with
    | none =>
        have h1 : (Storage.Row.toLink r).readAt = none := by
          simp [Storage.Row.toLink, hra]
        rw [h1]
        simp [Storage.Row.toLink]
    | some s0 =>
        by_cases hs0 : s0 = []
        · subst hs0
          have h1 : (Storage.Row.toLink r).readAt = none := by
            simp [Storage.Row.toLink, hra]
          rw [h1]
          simp [Storage.Row.toLink]
        · have h1 : (Storage.Row.toLink r).readAt =
              some (Storage.parseSQLiteTime s0) := by
            simp [Storage.Row.toLink, hra, hs0]
          rw [h1]
          simp [Storage.Row.toLink, GoTimeText.formatRFC3339_ne_nil,
            Storage.parseSQLiteTime_format _ (hrv s0 hra hs0)]

/-- Witness for C1 at concrete inputs: the spec scenario — the store
holds `https://a.test` with title `A` and tags `x,y`; adding the same URL
with empty title and note and tags `y,z` keeps the id, the times, and
title `A`, and stores tags `x,y,z`. -/
theorem C1_witness :
    ∃ row' : Storage.Row,
      (Storage.Add Storage.noFail ⟨2024, 1, 2, 10, 30, 0, 0⟩
          "bbbbbbbbbbbbbbbbbbbbbbbbbb".data
          [⟨"aaaaaaaaaaaaaaaaaaaaaaaaaa".data, "https://a.test".data,
            some "A".data, some [], some "x,y".data,
            "2024-01-01T12:00:00Z".data, some "2024-01-01 13:00:00".data⟩]
          ⟨[], "https://a.test".data, [], [], "y,z".data, GoTime.zero, none⟩).1 =
        (List.filter (fun x => decide (x.url ≠ "https://a.test".data))
          [⟨"aaaaaaaaaaaaaaaaaaaaaaaaaa".data, "https://a.test".data,
            some "A".data, some [], some "x,y".data,
            "2024-01-01T12:00:00Z".data, some "2024-01-01 13:00:00".data⟩]) ++ [row'] ∧
      row'.id = "aaaaaaaaaaaaaaaaaaaaaaaaaa".data ∧
      row'.url = "https://a.test".data ∧
      row'.title = some (if ([] : GoStr) ≠ [] then []
        else (Storage.Row.toLink ⟨"aaaaaaaaaaaaaaaaaaaaaaaaaa".data,
          "https://a.test".data, some "A".data, some [], some "x,y".data,
          "2024-01-01T12:00:00Z".data, some "2024-01-01 13:00:00".data⟩).title) ∧
      row'.note = some (if ([] : GoStr) ≠ [] then []
        else (Storage.Row.toLink ⟨"aaaaaaaaaaaaaaaaaaaaaaaaaa".data,
          "https://a.test".data, some "A".data, some [], some "x,y".data,
          "2024-01-01T12:00:00Z".data, some "2024-01-01 13:00:00".data⟩).note) ∧
      row'.tags = some (Model.MergeTags (Storage.Row.toLink
        ⟨"aaaaaaaaaaaaaaaaaaaaaaaaaa".data, "https://a.test".data,
          some "A".data, some [], some "x,y".data,
          "2024-01-01T12:00:00Z".data, some "2024-01-01 13:00:00".data⟩).tags
        "y,z".data) ∧
      Model.TagList (row'.tags.getD []) =
        specTagUnion (Model.TagList (Storage.Row.toLink
          ⟨"aaaaaaaaaaaaaaaaaaaaaaaaaa".data, "https://a.test".data,
            some "A".data, some [], some "x,y".data,
            "2024-01-01T12:00:00Z".data, some "2024-01-01 13:00:00".data⟩).tags)
          (Model.TagList "y,z".data) ∧
      Storage.parseSQLiteTime row'.createdAt =
        Storage.parseSQLiteTime "2024-01-01T12:00:00Z".data ∧
      (Storage.Row.toLink row').readAt = (Storage.Row.toLink
        ⟨"aaaaaaaaaaaaaaaaaaaaaaaaaa".data, "https://a.test".data,
          some "A".data, some [], some "x,y".data,
          "2024-01-01T12:00:00Z".data, some "2024-01-01 13:00:00".data⟩).readAt := by
  exact C1_add_merge_semantics ⟨2024, 1, 2, 10, 30, 0, 0⟩
    "bbbbbbbbbbbbbbbbbbbbbbbbbb".data
    [⟨"aaaaaaaaaaaaaaaaaaaaaaaaaa".data, "https://a.test".data,
      some "A".data, some [], some "x,y".data,
      "2024-01-01T12:00:00Z".data, some "2024-01-01 13:00:00".data⟩]
    ⟨[], "https://a.test".data, [], [], "y,z".data, GoTime.zero, none⟩
    ⟨"aaaaaaaaaaaaaaaaaaaaaaaaaa".data, "https://a.test".data,
      some "A".data, some [], some "x,y".data,
      "2024-01-01T12:00:00Z".data, some "2024-01-01 13:00:00".data⟩
    (by decide) (by decide) (by decide) (by decide)
    (by intro s0 h hs0; cases h; decide)

/-- C2: importing a record whose URL is already stored keeps the
existing id; keeps the stored title when it is non-empty and otherwise
takes the incoming one (the inverse priority of `Add`), the note
likewise; merges tags as the same case-insensitive union as `Add`; keeps
the stored `created_at` when it is non-zero and otherwise takes the
incoming value; and overwrites `read_at` unconditionally with the
incoming value — importing a record with null `read_at` over a
currently-read link leaves it unread. -/
theorem C2_import_merge_semantics (now : GoTime) (genId : Nat → GoStr)
    (st : Storage.Store) (link : Model.Link) (r : Storage.Row)
    (hfound : Storage.findByURL st link.url = some r)
    (hcv : (Storage.parseSQLiteTime r.createdAt).Valid) :
    ∃ row' : Storage.Row,
      Storage.Import Storage.noFail now genId st [link] =
        (st.filter (fun x => x.url ≠ link.url) ++ [row'], none) ∧
      row'.id = r.id ∧
      row'.url = link.url ∧
      row'.title = some (if (Storage.Row.toLink r).title = [] then link.title
        else (Storage.Row.toLink r).title) ∧
      row'.note = some (if (Storage.Row.toLink r).note = [] then link.note
        else (Storage.Row.toLink r).note) ∧
      row'.tags = some (Model.MergeTags (Storage.Row.toLink r).tags link.tags) ∧
      Model.TagList (row'.tags.getD []) =
        specTagUnion (Model.TagList (Storage.Row.toLink r).tags)
          (Model.TagList link.tags) ∧
      ((Storage.parseSQLiteTime r.createdAt).isZero = false →
        Storage.parseSQLiteTime row'.createdAt =
          Storage.parseSQLiteTime r.createdAt) ∧
      ((Storage.parseSQLiteTime r.createdAt).isZero = true →
        link.createdAt.isZero = false → link.createdAt.Valid →
        Storage.parseSQLiteTime row'.createdAt = link.createdAt) ∧
      row'.readAt = link.readAt.map GoTimeText.formatRFC3339 ∧
      (link.readAt = none → (Storage.Row.toLink row').readAt = none) ∧
      (∀ t, link.readAt = some t → t.Valid →
        (Storage.Row.toLink row').readAt = some t) := by
  simp only [Storage.Import, Storage.ImportLoop, Storage.noFail,
    Bool.false_eq_true, if_false, hfound]
  refine ⟨_, rfl, rfl, rfl, rfl, rfl, rfl, ?_, ?_, ?_, rfl, ?_, ?_⟩
  · exact Model.mergeTags_tagList _ _
  · intro hnz
    simp only []
    rw [if_neg (by rw [show (Storage.Row.toLink r).createdAt =
        Storage.parseSQLiteTime r.createdAt from rfl, hnz]; simp)]
    exact Storage.parseSQLiteTime_format _ hcv
  · intro hz hlnz hlv
    simp only []
    rw [if_pos (by rw [show (Storage.Row.toLink r).createdAt =
        Storage.parseSQLiteTime r.createdAt from rfl, hz]),
      if_neg (by rw [hlnz]; simp)]
    exact Storage.parseSQLiteTime_format _ hlv
  · intro hnone
    rw [hnone]
    simp [Storage.Row.toLink]
  · intro t ht htv
    rw [ht]
    simp [Storage.Row.toLink, GoTimeText.formatRFC3339_ne_nil,
      Storage.parseSQLiteTime_format _ htv]

/-- Witness for C2 at concrete inputs: the spec scenario — the store
holds `https://a.test` marked read at T1; importing the same URL with
null `read_at` clears the read state (and keeps id and created time). -/
theorem C2_witness :
    ∃ row' : Storage.Row,
      Storage.Import Storage.noFail ⟨2024, 1, 2, 10, 30, 0, 0⟩
          (fun _ => "dddddddddddddddddddddddddd".data)
          [⟨"aaaaaaaaaaaaaaaaaaaaaaaaaa".data, "https://a.test".data,
            some "A".data, some [], some "x,y".data,
            "2024-01-01T12:00:00Z".data, some "2024-01-01 13:00:00".data⟩]
          [⟨[], "https://a.test".data, "B".data, [], [], GoTime.zero, none⟩] =
        (List.filter (fun x => decide (x.url ≠ "https://a.test".data))
          [⟨"aaaaaaaaaaaaaaaaaaaaaaaaaa".data, "https://a.test".data,
            some "A".data, some [], some "x,y".data,
            "2024-01-01T12:00:00Z".data, some "2024-01-01 13:00:00".data⟩] ++
          [row'], none) ∧
      row'.id = "aaaaaaaaaaaaaaaaaaaaaaaaaa".data ∧
      ((Storage.parseSQLiteTime "2024-01-01T12:00:00Z".data).isZero = false →
        Storage.parseSQLiteTime row'.createdAt =
          Storage.parseSQLiteTime "2024-01-01T12:00:00Z".data) ∧
      ((none : Option GoTime) = none → (Storage.Row.toLink row').readAt = none) := by
  obtain ⟨row', h1, h2, _, _, _, _, _, h8, _, _, h11, _⟩ :=
    C2_import_merge_semantics ⟨2024, 1, 2, 10, 30, 0, 0⟩
      (fun _ => "dddddddddddddddddddddddddd".data)
      [⟨"aaaaaaaaaaaaaaaaaaaaaaaaaa".data, "https://a.test".data,
        some "A".data, some [], some "x,y".data,
        "2024-01-01T12:00:00Z".data, some "2024-01-01 13:00:00".data⟩]
      ⟨[], "https://a.test".data, "B".data, [], [], GoTime.zero, none⟩
      ⟨"aaaaaaaaaaaaaaaaaaaaaaaaaa".data, "https://a.test".data,
        some "A".data, some [], some "x,y".data,
        "2024-01-01T12:00:00Z".data, some "2024-01-01 13:00:00".data⟩
      (by decide) (by decide)
  exact ⟨row', h1, h2, h8, h11⟩

namespace Migrations

theorem sortStrs_migrationFiles : sortStrs migrationFiles = migrationFiles := by
  decide

theorem versionOf_file1 :
    versionOf ['0', '0', '1', '_', 'i', 'n', 'i', 't', 'i', 'a', 'l', '.',
      's', 'q', 'l'] = some 1 := by decide

theorem versionOf_file2 :
    versionOf ['0', '0', '2', '_', 'f', 't', 's', '5', '.', 's', 'q', 'l'] =
      some 2 := by decide

theorem contains_false_of_not_mem (l : List Int) (x : Int) (h : x ∉ l) :
    l.contains x = false := by
  rw [Bool.eq_false_iff]
  intro hc
  exact h (List.elem_iff.mp hc)

theorem contains_true_of_mem (l : List Int) (x : Int) (h : x ∈ l) :
    l.contains x = true := List.elem_iff.mpr h

end Migrations

/-- C5: on each run, every version not yet in the ledger is executed and
ledgered as one atomic unit — the schema-run list and the ledger are
extended by exactly the same versions, a failing unit (statements or
ledger write) leaves the database exactly as it was before that version
and makes the whole attempt fail — pending versions are processed in
ascending numeric order, and a second failure-free run changes nothing. -/
theorem C5_migrations_atomic_ordered (db : Migrations.DB) (fe fr : Int → Bool) :
    (1 ∉ db.ledger → 2 ∉ db.ledger → fe 1 = false → fr 1 = false →
      fe 2 = false → fr 2 = false →
      Migrations.runMigrations fe fr Migrations.migrationFiles db =
        (⟨db.schemaRuns ++ [1, 2], db.ledger ++ [1, 2]⟩, none)) ∧
    (1 ∉ db.ledger → 2 ∈ db.ledger → fe 1 = false → fr 1 = false →
      Migrations.runMigrations fe fr Migrations.migrationFiles db =
        (⟨db.schemaRuns ++ [1], db.ledger ++ [1]⟩, none)) ∧
    (1 ∈ db.ledger → 2 ∉ db.ledger → fe 2 = false → fr 2 = false →
      Migrations.runMigrations fe fr Migrations.migrationFiles db =
        (⟨db.schemaRuns ++ [2], db.ledger ++ [2]⟩, none)) ∧
    (1 ∈ db.ledger → 2 ∈ db.ledger →
      Migrations.runMigrations fe fr Migrations.migrationFiles db = (db, none)) ∧
    (1 ∉ db.ledger → (fe 1 = true ∨ fr 1 = true) →
      Migrations.runMigrations fe fr Migrations.migrationFiles db =
        (db, some .storageFailure)) ∧
    (1 ∈ db.ledger → 2 ∉ db.ledger → (fe 2 = true ∨ fr 2 = true) →
      Migrations.runMigrations fe fr Migrations.migrationFiles db =
        (db, some .storageFailure)) ∧
    (1 ∉ db.ledger → 2 ∉ db.ledger → fe 1 = false → fr 1 = false →
      (fe 2 = true ∨ fr 2 = true) →
      Migrations.runMigrations fe fr Migrations.migrationFiles db =
        (⟨db.schemaRuns ++ [1], db.ledger ++ [1]⟩, some .storageFailure)) := by
  have hunfold : ∀ d : Migrations.DB,
      Migrations.runMigrations fe fr Migrations.migrationFiles d =
        Migrations.runLoop fe fr
          ["001_initial.sql".data, "002_fts5.sql".data] d := by
    intro d
    rw [Migrations.runMigrations, Migrations.sortStrs_migrationFiles]
    rfl
  refine ⟨?_, ?_, ?_, ?_, ?_, ?_, ?_⟩
  · intro h1 h2 hfe1 hfr1 hfe2 hfr2
    rw [hunfold]
    simp only [Migrations.runLoop, Migrations.versionOf_file1,
      Migrations.versionOf_file2, Migrations.contains_false_of_not_mem _ _ h1,
      Bool.false_eq_true, if_false, hfe1, hfr1, hfe2, hfr2]
    rw [if_neg (by
      simp only [Bool.not_eq_true]
      apply Migrations.contains_false_of_not_mem
      simp only [List.mem_append, List.mem_singleton]
      rintro (h | h)
      · exact h2 h
      · omega)]
    simp [List.append_assoc]
  · intro h1 h2 hfe1 hfr1
    rw [hunfold]
    simp only [Migrations.runLoop, Migrations.versionOf_file1,
      Migrations.versionOf_file2, Migrations.contains_false_of_not_mem _ _ h1,
      Bool.false_eq_true, if_false, hfe1, hfr1]
    rw [if_pos (Migrations.contains_true_of_mem _ _
      (by simp only [List.mem_append]; exact Or.inl h2))]
  · intro h1 h2 hfe2 hfr2
    rw [hunfold]
    simp only [Migrations.runLoop, Migrations.versionOf_file1,
      Migrations.versionOf_file2, Migrations.contains_true_of_mem _ _ h1,
      if_true, Migrations.contains_false_of_not_mem _ _ h2,
      Bool.false_eq_true, if_false, hfe2, hfr2]
  · intro h1 h2
    rw [hunfold]
    simp only [Migrations.runLoop, Migrations.versionOf_file1,
      Migrations.versionOf_file2, Migrations.contains_true_of_mem _ _ h1,
      Migrations.contains_true_of_mem _ _ h2, if_true]
  · intro h1 hf
    rw [hunfold]
    simp only [Migrations.runLoop, Migrations.versionOf_file1,
      Migrations.contains_false_of_not_mem _ _ h1, Bool.false_eq_true,
      if_false]
    rcases hf with hf | hf
    · rw [if_pos hf]
    · by_cases hfe : fe 1 = true
      · rw [if_pos hfe]
      · rw [if_neg (by simpa using hfe), if_pos hf]
  · intro h1 h2 hf
    rw [hunfold]
    simp only [Migrations.runLoop, Migrations.versionOf_file1,
      Migrations.versionOf_file2, Migrations.contains_true_of_mem _ _ h1,
      if_true, Migrations.contains_false_of_not_mem _ _ h2,
      Bool.false_eq_true, if_false]
    rcases hf with hf | hf
    · rw [if_pos hf]
    · by_cases hfe : fe 2 = true
      · rw [if_pos hfe]
      · rw [if_neg (by simpa using hfe), if_pos hf]
  · intro h1 h2 hfe1 hfr1 hf
    rw [hunfold]
    simp only [Migrations.runLoop, Migrations.versionOf_file1,
      Migrations.versionOf_file2, Migrations.contains_false_of_not_mem _ _ h1,
      Bool.false_eq_true, if_false, hfe1, hfr1]
    rw [if_neg (by
      simp only [Bool.not_eq_true]
      apply Migrations.contains_false_of_not_mem
      simp only [List.mem_append, List.mem_singleton]
      rintro (h | h)
      · exact h2 h
      · omega)]
    rcases hf with hf | hf
    · rw [if_pos hf]
    · by_cases hfe : fe 2 = true
      · rw [if_pos hfe]
      · rw [if_neg (by simpa using hfe), if_pos hf]

/-- Witness for C5 at concrete inputs: a fresh database applies versions
1 and 2 in order with ledger and schema in lockstep, and a second run
changes nothing. -/
theorem C5_witness :
    Migrations.runMigrations Migrations.noFailI Migrations.noFailI
        Migrations.migrationFiles ⟨[], []⟩ = (⟨[1, 2], [1, 2]⟩, none) ∧
    Migrations.runMigrations Migrations.noFailI Migrations.noFailI
        Migrations.migrationFiles ⟨[1, 2], [1, 2]⟩ = (⟨[1, 2], [1, 2]⟩, none) := by
  constructor
  · have := (C5_migrations_atomic_ordered ⟨[], []⟩ Migrations.noFailI
      Migrations.noFailI).1 (by simp) (by simp) rfl rfl rfl rfl
    simpa using this
  · have := (C5_migrations_atomic_ordered ⟨[1, 2], [1, 2]⟩ Migrations.noFailI
      Migrations.noFailI).2.2.2.1 (by simp) (by simp)
    simpa using this

namespace GoTimeText

theorem sqliteDatetimeText_length (t : GoTime) :
    (sqliteDatetimeText t).length = 19 := by
  simp [sqliteDatetimeText, fmtDate, fmtClock, pad4, pad2]

theorem formatRFC3339_length (t : GoTime) :
    20 ≤ (formatRFC3339 t).length := by
  simp only [formatRFC3339, fmtDate, fmtClock, fmtOff, pad4, pad2]
  split
  · simp
  · split <;> simp

theorem sqliteDatetimeText_ne_formatRFC3339 (t u : GoTime) :
    sqliteDatetimeText t ≠ formatRFC3339 u := by
  intro h
  have h1 := sqliteDatetimeText_length t
  have h2 := formatRFC3339_length u
  rw [h] at h1
  omega

end GoTimeText

/-- Counterexample to C8 as stated: `MarkRead` does not store the
canonical RFC 3339 text.  Updating a row at 2024-01-02 10:30:00 UTC
stores the engine text `2024-01-02 10:30:00`, which differs from the
canonical text `2024-01-02T10:30:00Z` that `Add` writes for the very
same instant (and is not RFC 3339 at all). -/
theorem C8_counterexample_markread_writes_space_form :
    (Storage.MarkRead ⟨2024, 1, 2, 10, 30, 0, 0⟩
        [⟨"aaaaaaaaaaaaaaaaaaaaaaaaaa".data, "https://a.test".data,
          none, none, none, "2024-01-01T12:00:00Z".data, none⟩]
        "aaaaaaaaaaaaaaaaaaaaaaaaaa".data).1 =
      [⟨"aaaaaaaaaaaaaaaaaaaaaaaaaa".data, "https://a.test".data,
        none, none, none, "2024-01-01T12:00:00Z".data,
        some "2024-01-02 10:30:00".data⟩] ∧
    "2024-01-02 10:30:00".data ≠
      GoTimeText.formatRFC3339 ⟨2024, 1, 2, 10, 30, 0, 0⟩ ∧
    GoTimeText.parseRFC3339 "2024-01-02 10:30:00".data = none ∧
    (Storage.Add Storage.noFail ⟨2024, 1, 2, 10, 30, 0, 0⟩
        "bbbbbbbbbbbbbbbbbbbbbbbbbb".data []
        ⟨[], "https://a.test".data, [], [], [], GoTime.zero, none⟩).1 =
      [⟨"bbbbbbbbbbbbbbbbbbbbbbbbbb".data, "https://a.test".data,
        some [], some [], some [], "2024-01-02T10:30:00Z".data, none⟩] := by
  exact ⟨by decide, by decide, by decide, by decide⟩

/-- C8 as amended: timestamps are accepted on read in the three textual
forms (RFC 3339, space-separated date-time, bare date); `Add` and
`Import` write `created_at` (and any `read_at`) in the canonical
RFC 3339 text; but `MarkRead` stores the engine text
`datetime('now')` — the space-separated form, one of the accepted read
forms, never equal to an RFC 3339 text. -/
theorem C8_amended_read_forms_and_write_forms :
    (∀ t : GoTime, t.Valid →
        Storage.parseSQLiteTime (GoTimeText.formatRFC3339 t) = t ∧
        (t.offMin = 0 →
          Storage.parseSQLiteTime (GoTimeText.sqliteDatetimeText t) = t) ∧
        Storage.parseSQLiteTime (GoTimeText.fmtDate t) = GoTimeText.dateOnly t) ∧
    (∀ now freshId st (link : Model.Link), Model.Validate link = true →
        ∃ (rest : Storage.Store) (row' : Storage.Row),
          (Storage.Add Storage.noFail now freshId st link).1 = rest ++ [row'] ∧
          (∃ u, row'.createdAt = GoTimeText.formatRFC3339 u) ∧
          (row'.readAt = none ∨
            ∃ v, row'.readAt = some (GoTimeText.formatRFC3339 v))) ∧
    (∀ now genId st (link : Model.Link),
        ∃ (rest : Storage.Store) (row' : Storage.Row),
          (Storage.Import Storage.noFail now genId st [link]).1 = rest ++ [row'] ∧
          (∃ u, row'.createdAt = GoTimeText.formatRFC3339 u) ∧
          (row'.readAt = none ∨
            ∃ v, row'.readAt = some (GoTimeText.formatRFC3339 v))) ∧
    (∀ now st id row', Model.ValidateShortID id = true →
        row' ∈ (Storage.MarkRead now st id).1 → row'.id = id →
        row'.readAt = some (GoTimeText.sqliteDatetimeText now)) ∧
    (∀ t u : GoTime, GoTimeText.sqliteDatetimeText t ≠ GoTimeText.formatRFC3339 u) := by
  refine ⟨?_, ?_, ?_, ?_, GoTimeText.sqliteDatetimeText_ne_formatRFC3339⟩
  · intro t hv
    exact ⟨Storage.parseSQLiteTime_format t hv,
      fun h0 => Storage.parseSQLiteTime_sqliteText t hv h0,
      Storage.parseSQLiteTime_fmtDate t hv⟩
  · intro now freshId st link hval
    simp only [Storage.Add, hval, Bool.true_eq_false, if_false,
      Storage.noFail, Bool.false_eq_true]
    match hfound : Storage.findByURL st link.url with
    | some r =>
        refine ⟨_, _, rfl, ?_, ?_⟩
        · simp only []
          split
          · exact ⟨now, rfl⟩
          · exact ⟨(Storage.Row.toLink r).createdAt, rfl⟩
        · match hra : (Storage.Row.toLink r).readAt with
          | none => exact Or.inl rfl
          | some t => exact Or.inr ⟨t, rfl⟩
    | none =>
        refine ⟨_, _, rfl, ?_, ?_⟩
        · simp only []
          split
          · exact ⟨now, rfl⟩
          · exact ⟨link.createdAt, rfl⟩
        · match hra : link.readAt with
          | none => exact Or.inl rfl
          | some t => exact Or.inr ⟨t, rfl⟩
  · intro now genId st link
    simp only [Storage.Import, Storage.ImportLoop, Storage.noFail,
      Bool.false_eq_true, if_false]
    match hfound : Storage.findByURL st link.url with
    | some r =>
        refine ⟨_, _, rfl, ?_, ?_⟩
        · simp only []
          split
          · split
            · exact ⟨now, rfl⟩
            · exact ⟨link.createdAt, rfl⟩
          · exact ⟨(Storage.Row.toLink r).createdAt, rfl⟩
        · match hra : link.readAt with
          | none => exact Or.inl rfl
          | some t => exact Or.inr ⟨t, rfl⟩
    | none =>
        refine ⟨_, _, rfl, ?_, ?_⟩
        · simp only []
          split
          · exact ⟨now, rfl⟩
          · exact ⟨link.createdAt, rfl⟩
        · match hra : link.readAt with
          | none => exact Or.inl rfl
          | some t => exact Or.inr ⟨t, rfl⟩
  · intro now st id row' hval hmem hid
    simp only [Storage.MarkRead, hval, Bool.true_eq_false, if_false] at hmem
    have hmem1 : row' ∈ st.map (fun r =>
        if r.id = id then
          { r with readAt := some (GoTimeText.sqliteDatetimeText now) }
        else r) := by
      split at hmem
      · exact hmem
      · exact hmem
    simp only [List.mem_map] at hmem1
    obtain ⟨r0, hr0, rfl⟩ := hmem1
    by_cases hr0id : r0.id = id
    · rw [if_pos hr0id]
    · rw [if_neg hr0id] at hid ⊢
      exact absurd hid hr0id

/-- Witness for C8 at concrete inputs: the three read forms of
2024-01-02 10:30:00 UTC all parse back, and a created row carries an
RFC 3339 `created_at`. -/
theorem C8_witness :
    (Storage.parseSQLiteTime
        (GoTimeText.formatRFC3339 ⟨2024, 1, 2, 10, 30, 0, 0⟩) =
      ⟨2024, 1, 2, 10, 30, 0, 0⟩ ∧
      ((⟨2024, 1, 2, 10, 30, 0, 0⟩ : GoTime).offMin = 0 →
        Storage.parseSQLiteTime
          (GoTimeText.sqliteDatetimeText ⟨2024, 1, 2, 10, 30, 0, 0⟩) =
          ⟨2024, 1, 2, 10, 30, 0, 0⟩) ∧
      Storage.parseSQLiteTime (GoTimeText.fmtDate ⟨2024, 1, 2, 10, 30, 0, 0⟩) =
        GoTimeText.dateOnly ⟨2024, 1, 2, 10, 30, 0, 0⟩) ∧
    (∃ (rest : Storage.Store) (row' : Storage.Row),
      (Storage.Add Storage.noFail ⟨2024, 1, 2, 10, 30, 0, 0⟩
          "bbbbbbbbbbbbbbbbbbbbbbbbbb".data []
          ⟨[], "https://a.test".data, [], [], [], GoTime.zero, none⟩).1 =
        rest ++ [row'] ∧
      (∃ u, row'.createdAt = GoTimeText.formatRFC3339 u) ∧
      (row'.readAt = none ∨
        ∃ v, row'.readAt = some (GoTimeText.formatRFC3339 v))) := by
  constructor
  · exact C8_amended_read_forms_and_write_forms.1 ⟨2024, 1, 2, 10, 30, 0, 0⟩
      (by decide)
  · exact C8_amended_read_forms_and_write_forms.2.1 ⟨2024, 1, 2, 10, 30, 0, 0⟩
      "bbbbbbbbbbbbbbbbbbbbbbbbbb".data []
      ⟨[], "https://a.test".data, [], [], [], GoTime.zero, none⟩ (by decide)
